import Mathlib

/-!
Verification of the streaming beat-lighting pipeline.

This file gives a shallow embedding of the numerical core of the pipeline
(the MQTT publisher's wall-clock conversion, the onset gate, the Kalman/PLL
instrument tracker, the mask builder, the lighting filter and the shared
logger frame counter) and proves, or refutes, the specified properties.

Modelling conventions:
* `Real` (a 32-bit float in the sources) is modelled by `ℚ` where the code
  only uses field operations, comparisons, `floor`, `round`, `abs`, `min`
  and `max`, so that every definition is executable; components that call
  transcendental library functions (`sqrt`, `exp`, `cos`, `log10`, `pow`)
  are modelled over `ℝ` using Mathlib's exact functions.
* C++ `int` / `long` / `time_t` are modelled by `ℤ` (or by `ℕ` for counters
  that the declared parameter ranges keep nonnegative); truncating C++
  integer division and remainder are `Int.tdiv` and `Int.tmod`.
* `std::deque` / `std::vector` are Lean lists, newest element at the end.
-/

namespace BeatPipe

/-- C++ `std::round`: round half away from zero.  For a nonnegative argument
this is `⌊x + 1/2⌋`; for a negative one it is `-⌊-x + 1/2⌋`.  (`Rat.floor`
is the executable floor on `ℚ`; it agrees with `Int.floor`.) -/
def roundAway (x : ℚ) : ℤ :=
  if 0 ≤ x then (x + 1/2).floor else -(-x + 1/2).floor

/-! ## Publisher: `MQTTPublisher::convertToUnixTime`

The conversion from a pipeline-relative prediction time `tPredSec` to an
absolute wall-clock `(unix_time, microseconds)` pair, given the baseline
`(startUnixTime, startMicroseconds)` captured by `initializeTime`.  We model
the `_timeInitialized` path (the claim assumes the baseline was captured at
configure; the fallback path merely reads the current system clock). -/

/-- Model of `MQTTPublisher::convertToUnixTime` (src lines 150-197).
Returns the pair `(unixTime, microseconds)`. -/
def convertToUnixTime (startUnixTime startMicroseconds : ℤ) (tPredSec : ℚ) :
    ℤ × ℤ :=
  -- time_t predSeconds = static_cast<time_t>(std::floor(tPredSec));
  let predSeconds : ℤ := tPredSec.floor
  -- Real fractionalSec = tPredSec - static_cast<Real>(predSeconds);
  let fractionalSec : ℚ := tPredSec - (predSeconds : ℚ)
  -- long predMicroseconds = static_cast<long>(std::round(fractionalSec * 1000000.0));
  let predMicroseconds : ℤ := roundAway (fractionalSec * 1000000)
  let unixTime : ℤ := startUnixTime + predSeconds
  let microseconds : ℤ := startMicroseconds + predMicroseconds
  -- overflow: carry whole seconds out of the microsecond field
  let p1 : ℤ × ℤ :=
    if 1000000 ≤ microseconds then
      (unixTime + microseconds.tdiv 1000000, microseconds.tmod 1000000)
    else (unixTime, microseconds)
  -- underflow: borrow from the seconds (negative C++ division, truncating)
  let p2 : ℤ × ℤ :=
    if p1.2 < 0 then
      let borrowSeconds : ℤ := (p1.2 - 999999).tdiv 1000000
      (p1.1 + borrowSeconds, p1.2 - borrowSeconds * 1000000)
    else p1
  -- final safety normalisation
  if p2.2 < 0 ∨ 1000000 ≤ p2.2 then
    let adjust : ℤ := p2.2.tdiv 1000000
    let u : ℤ := p2.1 + adjust
    let m : ℤ := p2.2 - adjust * 1000000
    if m < 0 then (u - 1, m + 1000000) else (u, m)
  else p2

/-- C1, counterexample.  With the baseline `epochSec0 = 1700000000`,
`microSec0 = 500000` and `tPred = 1.75`, the conversion yields
`unix_time = 1700000002` (the microsecond carry `500000 + 750000 ≥ 10^6`
increments the seconds once more), not the `1700000001` the claim expects. -/
theorem convertToUnixTime_claim_false :
    convertToUnixTime 1700000000 500000 (7/4) = (1700000002, 250000) ∧
      convertToUnixTime 1700000000 500000 (7/4) ≠ (1700000001, 250000) := by
  with_unfolding_all decide

/-- C1, amended.  With baseline `epochSec0 = 1700000000, microSec0 = 500000`
and `tPred = 1.75`, the conversion computes `wholeSec = 1`,
`fracUs = 750000`, `outSec = 1700000001`, `outUs = 1250000`, and the carry
`outUs ≥ 10^6` yields the payload `unix_time = 1700000002`,
`microseconds = 250000`. -/
theorem convertToUnixTime_example :
    convertToUnixTime 1700000000 500000 (7/4) = (1700000002, 250000) := by
  with_unfolding_all decide

/-! ## Onset gate: `HitGateOnset`

Per-instrument adaptive-threshold edge-triggered detector.  `Real` here is
only used with field operations and comparisons, so the whole gate is
modelled over `ℚ`.  The declared parameter ranges (`refractory ∈ [0,∞)`,
`warmup ∈ [0,∞)`, `smooth_window ∈ [1,∞)`, `odf_window ∈ [8,∞)`) make the
integer parameters nonnegative, so they are modelled by `ℕ`. -/

/-- Maximum of a list (C++ `std::max_element`); `0` for the empty list,
which the code never queries. -/
def listMax : List ℚ → ℚ
  | [] => 0
  | x :: xs => xs.foldl max x

/-- The median selection of `HitGateOnset::computeMedianAndMAD`:
`nth_element` at `mid = n/2` places the `mid`-th order statistic at index
`mid` and partitions the `mid` smallest values below it, so the value read
at `copyVals[mid]` is `(sorted l).getD mid` and `*max_element` over the
lower partition is the maximum of the first `mid` sorted values.  On even
counts the two are averaged. -/
def selectMid (l : List ℚ) : ℚ :=
  let s := l.insertionSort (· ≤ ·)
  let mid := l.length / 2
  let m := s.getD mid 0
  if l.length % 2 = 0 then (m + listMax (s.take mid)) * (1/2) else m

/-- Model of `HitGateOnset::computeMedianAndMAD`: the median of the values
and the (unscaled) median absolute deviation. -/
def computeMedianAndMAD (values : List ℚ) : ℚ × ℚ :=
  if values = [] then (0, 0)
  else
    let median := selectMid values
    let devs := values.map fun v => |v - median|
    (median, selectMid devs)

/-- The textbook median the spec describes: central order statistic, and on
even counts the mean of the two central order statistics. -/
def specMedian (l : List ℚ) : ℚ :=
  if l = [] then 0
  else
    let s := l.insertionSort (· ≤ ·)
    let n := l.length
    if n % 2 = 0 then (s.getD (n/2 - 1) 0 + s.getD (n/2) 0) / 2
    else s.getD (n/2) 0

/-- The median absolute deviation as the spec describes it: the median of
the absolute deviations from the median. -/
def specMAD (l : List ℚ) : ℚ :=
  specMedian (l.map fun v => |v - specMedian l|)

/-- Parameters of one onset gate (`HitGateOnset::configure`). -/
structure GateParams where
  method : String
  threshold : ℚ
  refractory : ℕ
  warmup : ℕ
  /-- declared but not used by the ODF pipeline -/
  sensitivity : ℚ
  smoothWindow : ℕ
  odfWindow : ℕ

/-- Mutable state of one onset gate. -/
structure GateState where
  /-- smoothing window: the raw (pre-smoothing) ODF values of recent frames -/
  odfHistory : List ℚ
  /-- rolling history of smoothed ODF values for the adaptive threshold -/
  odfThreshHistory : List ℚ
  refCount : ℕ
  framesSeen : ℕ
  detectionEnabled : Bool
  prevSmoothed : ℚ
  wasAbove : Bool

/-- Gate state after `HitGateOnset::reset`. -/
def initGateState : GateState :=
  { odfHistory := [], odfThreshHistory := [], refCount := 0, framesSeen := 0,
    detectionEnabled := false, prevSmoothed := 0, wasAbove := false }

/-- The onset detection function computed by `HitGateOnset::process`
(lines 77-96).  `odfHistory.getLastD 0` is `_odfHistory.back()`: the raw
ODF value of the previous frame. -/
def odfValue (method : String) (currentFrame : ℚ) (odfHistory : List ℚ) : ℚ :=
  if method = "hfc" ∨ method = "flux" then
    if 2 ≤ odfHistory.length then max 0 (currentFrame - odfHistory.getLastD 0)
    else 0
  else if method = "rms" then currentFrame
  else
    if 1 ≤ odfHistory.length then max 0 (currentFrame - odfHistory.getLastD 0)
    else 0

/-- Model of `HitGateOnset::smoothODF`: append the raw ODF value, cap the
window, return the new window together with its mean. -/
def smoothODF (smoothWindow : ℕ) (odfHistory : List ℚ) (v : ℚ) :
    List ℚ × ℚ :=
  let h0 := odfHistory ++ [v]
  let h := if smoothWindow < h0.length then h0.tail else h0
  (h, if h = [] then 0 else h.sum / (h.length : ℚ))

/-- The adaptive threshold of `HitGateOnset::process` (lines 108-118):
median + multiplier × floored MAD once the rolling history holds at least 8
values, the raw `threshold` parameter before that. -/
def dynamicThreshold (threshold : ℚ) (hist : List ℚ) : ℚ :=
  if 8 ≤ hist.length then
    let stats := computeMedianAndMAD hist
    let madFloor := max (1/1000000) stats.2
    stats.1 + (if 0 < threshold then threshold else 3/10) * madFloor
  else threshold

/-- Model of one call of `HitGateOnset::process`: consumes the scalar band
energy of one frame, returns the updated state and the 0/1 output. -/
def step (p : GateParams) (st : GateState) (currentFrame : ℚ) :
    GateState × ℚ :=
  let framesSeen := st.framesSeen + 1
  let refCount := if 0 < st.refCount then st.refCount - 1 else st.refCount
  let detectionEnabled := st.detectionEnabled || decide (p.warmup ≤ framesSeen)
  if detectionEnabled then
    let odf := odfValue p.method currentFrame st.odfHistory
    let sm := smoothODF p.smoothWindow st.odfHistory odf
    let smoothed := sm.2
    let th0 := st.odfThreshHistory ++ [smoothed]
    let odfThreshHistory := if p.odfWindow < th0.length then th0.tail else th0
    let T := dynamicThreshold p.threshold odfThreshHistory
    let above := decide (T < smoothed)
    let rising := decide (st.prevSmoothed ≤ smoothed)
    let hit0 : ℚ := if above && !st.wasAbove && rising then 1 else 0
    let hit : ℚ := if refCount ≠ 0 then 0 else hit0
    let refCount2 := if hit = 1 then p.refractory else refCount
    ({ odfHistory := sm.1, odfThreshHistory := odfThreshHistory,
       refCount := refCount2, framesSeen := framesSeen,
       detectionEnabled := detectionEnabled, prevSmoothed := smoothed,
       wasAbove := above }, hit)
  else
    ({ st with framesSeen := framesSeen, refCount := refCount, detectionEnabled := detectionEnabled }, 0)

/-- A run of the gate over a list of frame inputs, collecting the outputs. -/
def runGate (p : GateParams) (inputs : List ℚ) : GateState × List ℚ :=
  inputs.foldl (fun acc x =>
    let r := step p acc.1 x
    (r.1, acc.2 ++ [r.2])) (initGateState, [])

/-- The maximum of a sorted nonempty list is its last element. -/
theorem listMax_of_sorted :
    ∀ (l : List ℚ), l.Sorted (· ≤ ·) → l ≠ [] → listMax l = l.getLastD 0
  | [x], _, _ => rfl
  | x :: y :: t, hs, _ => by
    have hxy : x ≤ y := List.rel_of_sorted_cons hs y (by simp)
    have ht : (y :: t).Sorted (· ≤ ·) := hs.of_cons
    have ih := listMax_of_sorted (y :: t) ht (by simp)
    simp only [listMax, List.foldl_cons] at ih ⊢
    rw [max_eq_right hxy, ih]
    simp [List.getLastD_cons]

/-- For a nonempty list the default of `getLastD` is irrelevant. -/
theorem getLastD_default_irrel :
    ∀ (l : List ℚ), l ≠ [] → ∀ d1 d2 : ℚ, l.getLastD d1 = l.getLastD d2
  | [], h, _, _ => absurd rfl h
  | _ :: _, _, _, _ => by rw [List.getLastD_cons, List.getLastD_cons]

/-- The last element of `take m` of a list is its `(m-1)`-th element. -/
theorem getLastD_take :
    ∀ (s : List ℚ) (m : ℕ), 1 ≤ m → m ≤ s.length →
      (s.take m).getLastD 0 = s.getD (m - 1) 0 := by
  intro s
  induction s with
  | nil => intro m h1 h2; simp at h2; omega
  | cons a t ih =>
    intro m h1 h2
    match m, h1 with
    | 1, _ =>
      cases t with
      | nil => simp
      | cons b u =>
        simp [List.take_succ_cons]
    | (k+2), _ =>
      have hk : 1 ≤ k + 1 := by omega
      have hk2 : k + 1 ≤ t.length := by simpa using h2
      have ihh := ih (k+1) hk hk2
      have hne : t.take (k+1) ≠ [] := by
        have hlt : (t.take (k+1)).length = k+1 := by
          rw [List.length_take]; omega
        intro hnil; rw [hnil] at hlt; simp at hlt
      rw [List.take_succ_cons, List.getLastD_cons,
        getLastD_default_irrel _ hne a 0]
      have hgd : (a :: t).getD (k + 2 - 1) 0 = t.getD k 0 := by
        simp [List.getD_cons_succ]
      rw [hgd]
      simpa using ihh

/-- The `nth_element`-style selection agrees with the textbook median. -/
theorem selectMid_eq (l : List ℚ) : selectMid l = specMedian l := by
  by_cases hl : l = []
  · subst hl; with_unfolding_all decide
  · simp only [selectMid, specMedian, if_neg hl]
    have hsorted : (l.insertionSort (· ≤ ·)).Sorted (· ≤ ·) :=
      List.sorted_insertionSort _ l
    have hlen : (l.insertionSort (· ≤ ·)).length = l.length :=
      List.length_insertionSort _ l
    by_cases hpar : l.length % 2 = 0
    · simp only [if_pos hpar]
      have hn1 : 1 ≤ l.length := by
        have := List.length_pos.mpr hl; omega
      have hmid1 : 1 ≤ l.length / 2 := by omega
      have hmidle : l.length / 2 ≤ (l.insertionSort (· ≤ ·)).length := by
        rw [hlen]; omega
      have htake_ne : (l.insertionSort (· ≤ ·)).take (l.length / 2) ≠ [] := by
        have hlt : ((l.insertionSort (· ≤ ·)).take (l.length/2)).length
            = l.length / 2 := by
          rw [List.length_take]; omega
        intro h0; rw [h0] at hlt; simp at hlt; omega
      have hts : ((l.insertionSort (· ≤ ·)).take (l.length / 2)).Sorted (· ≤ ·) :=
        List.Pairwise.sublist (List.take_sublist _ _) hsorted
      rw [listMax_of_sorted _ hts htake_ne,
        getLastD_take _ _ hmid1 hmidle]
      ring
    · simp only [if_neg hpar]

/-- `HitGateOnset::computeMedianAndMAD` computes the textbook median and
the median absolute deviation. -/
theorem computeMedianAndMAD_eq (l : List ℚ) :
    computeMedianAndMAD l = (specMedian l, specMAD l) := by
  by_cases hl : l = []
  · subst hl
    have h0 : specMedian ([] : List ℚ) = 0 := rfl
    simp [computeMedianAndMAD, specMAD, h0]
  · simp only [computeMedianAndMAD, if_neg hl, selectMid_eq, specMAD]

/-- C2, amended.  The adaptive threshold of the gate: once the rolling ODF
history holds at least 8 values with median `m` and median absolute
deviation `d`, the threshold used for peak picking is
`m + (if k > 0 then k else 0.3) * max(d, 1e-6)` — the multiplier is the raw
threshold parameter `k` whenever `k > 0` (not `max(k, 0.3)` as claimed);
with fewer than 8 history values the threshold is the raw parameter `k`. -/
theorem dynamicThreshold_spec (k : ℚ) (hist : List ℚ) :
    dynamicThreshold k hist =
      if 8 ≤ hist.length then
        specMedian hist + (if 0 < k then k else 3/10)
          * max (1/1000000) (specMAD hist)
      else k := by
  simp only [dynamicThreshold, computeMedianAndMAD_eq]

/-- Gate parameters of the C2 counterexample run: method `rms`,
threshold `k = 0.1` (within the declared range `[0,10]`), refractory 6,
warmup 0, sensitivity 1, smooth window 1, ODF window 64. -/
def gateP2 : GateParams :=
  { method := "rms", threshold := 1/10, refractory := 6, warmup := 0,
    sensitivity := 1, smoothWindow := 1, odfWindow := 64 }

/-- Inputs of the C2 counterexample run. -/
def gateIn2 : List ℚ := [0, 0, 0, 0, 0, 0, 0, 1/5000000]

/-- C2, counterexample.  Run the gate for 8 frames so that the rolling ODF
history holds 8 values (median 0, MAD 0).  The threshold the code uses on
that frame is `0 + 0.1 * max(0, 1e-6) = 1e-7`, while the claimed formula
`m + max(k, 0.3) * max(d, 1e-6)` gives `3e-7`: with `k = 0.1` the code
multiplies by `k` itself, not by `max(k, 0.3)`. -/
theorem dynamicThreshold_claim_false :
    8 ≤ (runGate gateP2 gateIn2).1.odfThreshHistory.length ∧
    dynamicThreshold (1/10) ((runGate gateP2 gateIn2).1.odfThreshHistory)
      = 1/10000000 ∧
    specMedian ((runGate gateP2 gateIn2).1.odfThreshHistory)
        + max (1/10) (3/10)
          * max (specMAD ((runGate gateP2 gateIn2).1.odfThreshHistory))
            (1/1000000)
      = 3/10000000 ∧
    (1/10000000 : ℚ) ≠ 3/10000000 := by
  have h1 : (runGate gateP2 gateIn2).1.odfThreshHistory
      = [0, 0, 0, 0, 0, 0, 0, 1/5000000] := by
    norm_num +decide [runGate, gateIn2, gateP2, step, initGateState, odfValue,
      smoothODF, dynamicThreshold, computeMedianAndMAD, selectMid, listMax,
      List.foldl]
  rw [h1]
  norm_num [dynamicThreshold, computeMedianAndMAD, selectMid, specMedian,
    specMAD, listMax, List.insertionSort, List.orderedInsert]

/-- Appending a singleton fixes the last element. -/
theorem getLastD_concat_q (l : List ℚ) (v : ℚ) :
    ∀ d : ℚ, (l ++ [v]).getLastD d = v := by
  induction l with
  | nil => intro d; rfl
  | cons a t ih => intro d; rw [List.cons_append, List.getLastD_cons, ih]

/-- The smoothing window produced by `smoothODF` ends with the raw ODF
value that was just appended (the window size is at least 1). -/
theorem smoothODF_getLast (w : ℕ) (h : List ℚ) (v : ℚ) (hw : 1 ≤ w) :
    (smoothODF w h v).1.getLastD 0 = v := by
  unfold smoothODF
  by_cases hc : w < (h ++ [v]).length
  · simp only [if_pos hc]
    cases h with
    | nil => simp at hc; omega
    | cons a t =>
      rw [List.cons_append, List.tail_cons, getLastD_concat_q]
  · simp only [if_neg hc]
    exact getLastD_concat_q h v 0

/-- C3, amended.  On a frame processed with detection enabled, the raw
onset detection function value recorded by the step (the last element of
the updated smoothing window) is: for `hfc`/`flux`,
`max(0, x - prevODF)` when the smoothing window already holds at least 2
values and `0` otherwise; for `rms`, the raw input `x`; for any other
method, `max(0, x - prevODF)` when the window is nonempty and `0`
otherwise — where `prevODF` is the previous frame's raw (pre-smoothing)
ODF value, not the previous frame's raw input. -/
theorem step_odf_spec (p : GateParams) (st : GateState) (x : ℚ)
    (hen : st.detectionEnabled = true) (hsw : 1 ≤ p.smoothWindow) :
    (step p st x).1.odfHistory.getLastD 0 =
      if p.method = "hfc" ∨ p.method = "flux" then
        if 2 ≤ st.odfHistory.length then
          max 0 (x - st.odfHistory.getLastD 0)
        else 0
      else if p.method = "rms" then x
      else
        if 1 ≤ st.odfHistory.length then
          max 0 (x - st.odfHistory.getLastD 0)
        else 0 := by
  simp only [step, hen, Bool.true_or, if_pos]
  rw [smoothODF_getLast _ _ _ hsw]
  rfl

/-- Gate parameters of the C3 counterexample run: method `complex` (a
configurable method that takes the default ODF branch), warmup 0, smooth
window 1. -/
def gateP3 : GateParams :=
  { method := "complex", threshold := 3/10, refractory := 6, warmup := 0,
    sensitivity := 1, smoothWindow := 1, odfWindow := 64 }

/-- C3, counterexample.  Feed the enabled gate the inputs 5 then 3.  On the
second frame the code computes the ODF from the previous frame's ODF value
(0, because frame 1 had no history), giving `max(0, 3 - 0) = 3`; the claim
predicts `max(0, x - last_x) = max(0, 3 - 5) = 0` from the previous raw
input 5. -/
theorem odfValue_claim_false :
    odfValue "complex" 3 ((step gateP3 initGateState 5).1.odfHistory) = 3 ∧
    max 0 (3 - 5 : ℚ) = 0 ∧ (3 : ℚ) ≠ 0 := by
  with_unfolding_all decide

/-- C3, witness for the amended theorem: instantiate it on the state after
one frame of the C3 run and the input 3. -/
theorem step_odf_spec_witness :
    (step gateP3 initGateState 5).1.detectionEnabled = true ∧
    1 ≤ gateP3.smoothWindow ∧
    (step gateP3 (step gateP3 initGateState 5).1 3).1.odfHistory.getLastD 0 =
      if gateP3.method = "hfc" ∨ gateP3.method = "flux" then
        if 2 ≤ (step gateP3 initGateState 5).1.odfHistory.length then
          max 0 (3 - (step gateP3 initGateState 5).1.odfHistory.getLastD 0)
        else 0
      else if gateP3.method = "rms" then (3:ℚ)
      else
        if 1 ≤ (step gateP3 initGateState 5).1.odfHistory.length then
          max 0 (3 - (step gateP3 initGateState 5).1.odfHistory.getLastD 0)
        else 0 :=
  ⟨by with_unfolding_all decide, by decide,
    step_odf_spec gateP3 (step gateP3 initGateState 5).1 3
      (by with_unfolding_all decide) (by decide)⟩

/-! ## Tracker: `InstrumentPredictor` Kalman/PLL tempo-phase state

The per-instrument tracker state and its per-frame transition
(`kalmanPredict`, `updateInstrumentState`, `kalmanUpdate`,
`updateIOIStatistics`).  All arithmetic here is field operations,
comparisons, `abs`, `min`/`max` and the floor-based phase wrapping, so the
whole component is modelled over `ℚ`. -/

/-- Tracker configuration (`InstrumentPredictor::configure`).  The declared
range of `min_hits_for_seed` is `[3,20]`, so it is a `ℕ`. -/
structure TrackerParams where
  minHitsForSeed : ℕ
  minBpm : ℚ
  maxBpm : ℚ
  qPeriod : ℚ
  qPhase : ℚ
  rBase : ℚ
deriving DecidableEq

/-- Per-instrument tracker state (struct `InstrumentState`).
`confidenceGlobal` is written only by `computeConfidence`, which is
modelled separately over `ℝ`, so it is omitted here. -/
structure InstrumentState where
  warmupComplete : Bool
  hitTimes : List ℚ
  ioiBuffer : List ℚ
  periodMedian : ℚ
  periodMAD : ℚ
  period : ℚ
  phase : ℚ
  P00 : ℚ
  P01 : ℚ
  P10 : ℚ
  P11 : ℚ
  lastHitTime : ℚ
  lastUpdateFrame : ℤ
  hitsSeen : ℕ
deriving DecidableEq

/-- The default-constructed `InstrumentState`. -/
def initInstrumentState : InstrumentState :=
  { warmupComplete := false, hitTimes := [], ioiBuffer := [],
    periodMedian := 0, periodMAD := 0, period := 1/2, phase := 0,
    P00 := 1/100, P01 := 0, P10 := 0, P11 := 1/100,
    lastHitTime := -1, lastUpdateFrame := -1, hitsSeen := 0 }

/-- `InstrumentPredictor::wrapPhase`: the subtract/add loops reduce the
argument into `[0,1)`, i.e. compute `x - ⌊x⌋`. -/
def wrapPhase (x : ℚ) : ℚ := x - (x.floor : ℚ)

/-- `InstrumentPredictor::wrapPhaseResidual`: the loops reduce the argument
into `[-1/2,1/2)`, i.e. compute `r - ⌊r + 1/2⌋`. -/
def wrapPhaseResidual (r : ℚ) : ℚ := r - ((r + 1/2).floor : ℚ)

/-- Model of `InstrumentPredictor::computeMedian` (`std::sort` based). -/
def computeMedian (values : List ℚ) : ℚ :=
  if values = [] then 0
  else if values.length = 1 then values.getD 0 0
  else
    let sorted := values.insertionSort (· ≤ ·)
    let mid := values.length / 2
    if values.length % 2 = 0 then
      (sorted.getD (mid - 1) 0 + sorted.getD mid 0) * (1/2)
    else sorted.getD mid 0

/-- Model of `InstrumentPredictor::computeMAD`: `1.4826` times the median
absolute deviation. -/
def computeMAD (values : List ℚ) (median : ℚ) : ℚ :=
  if values = [] then 0
  else
    let deviations := values.map fun v => |v - median|
    (14826/10000) * computeMedian deviations

/-- The lower IOI filter bound `60 / max_bpm` (shortest admissible period). -/
def minPeriod (p : TrackerParams) : ℚ := 60 / p.maxBpm

/-- The upper clamp bound `60 / min_bpm` (longest admissible period). -/
def maxPeriod (p : TrackerParams) : ℚ := 60 / p.minBpm

/-- Model of `InstrumentPredictor::updateIOIStatistics`: rebuild the IOI
buffer from consecutive hit pairs, filter outliers, and recompute the
robust period statistics when at least two IOIs survive. -/
def updateIOIStatistics (p : TrackerParams) (st : InstrumentState) :
    InstrumentState :=
  if st.hitTimes.length < 2 then st
  else
    let iois := (st.hitTimes.zip st.hitTimes.tail).map fun ab => ab.2 - ab.1
    let buf := iois.filter fun ioi =>
      decide (minPeriod p ≤ ioi ∧ ioi ≤ maxPeriod p * 4)
    if 2 ≤ buf.length then
      let m := computeMedian buf
      { st with ioiBuffer := buf, periodMedian := m, periodMAD := computeMAD buf m }
    else { st with ioiBuffer := buf }

/-- Model of `InstrumentPredictor::kalmanPredict`.  Note the early return:
the predict step is a no-op until `warmupComplete`. -/
def kalmanPredict (p : TrackerParams) (dt : ℚ) (st : InstrumentState) :
    InstrumentState :=
  if st.warmupComplete = false then st
  else
    let P00 := st.P00 + p.qPeriod * dt
    let phase :=
      if 1/1000000 < st.period then wrapPhase (st.phase + dt / st.period)
      else st.phase
    let s := -dt / (st.period * st.period)
    let P11 := st.P11 + p.qPhase * dt + s * s * P00
    let P01 := st.P01 + s * P00
    { st with P00 := P00, phase := phase, P11 := P11, P01 := P01, P10 := P01 }

/-- Model of `InstrumentPredictor::kalmanUpdate` with measurement matrix
`H = (0, 1)`. -/
def kalmanUpdate (p : TrackerParams) (phaseResidual : ℚ)
    (st : InstrumentState) : InstrumentState :=
  let H0 : ℚ := 0
  let H1 : ℚ := 1
  let R := p.rBase * (1 + st.periodMAD / st.period)
  let S := H0 * H0 * st.P00 + 2 * H0 * H1 * st.P01 + H1 * H1 * st.P11 + R
  if S < 1/1000000000 then st
  else
    let K0 := (H0 * st.P00 + H1 * st.P01) / S
    let K1 := (H0 * st.P01 + H1 * st.P11) / S
    let period := st.period - K0 * phaseResidual
    let phase := wrapPhase (st.phase - K1 * phaseResidual)
    let P00n := st.P00 - K0 * S * K0
    let P01n := st.P01 - K0 * S * K1
    let P11n := st.P11 - K1 * S * K1
    let st2 := { st with period := period, phase := phase, P00 := max (1/1000000) P00n, P01 := P01n, P10 := P01n, P11 := max (1/1000000) P11n }
    if 1/10 < |phaseResidual| then
      { st2 with period := st2.period + -phaseResidual * st2.period * (1/10) }
    else st2

/-- First block of `InstrumentPredictor::updateInstrumentState` on a hit:
record the hit time and bookkeeping, then cap the sliding window at
`MAX_HITS = 20` by popping the front. -/
def pushHit (frameCount : ℤ) (currentTime : ℚ) (st : InstrumentState) :
    InstrumentState :=
  let st1 := { st with hitTimes := st.hitTimes ++ [currentTime], lastHitTime := currentTime, lastUpdateFrame := frameCount, hitsSeen := st.hitsSeen + 1 }
  if 20 < st1.hitTimes.length then { st1 with hitTimes := st1.hitTimes.tail }
  else st1

/-- Second block of `updateInstrumentState`: once two hits are recorded,
refresh the IOI statistics and, when the warmup condition
`hitsSeen ≥ min_hits_for_seed ∧ |iois| ≥ min_hits_for_seed - 1` is first
met, seed the Kalman state from them. -/
def seedIfReady (p : TrackerParams) (st : InstrumentState) :
    InstrumentState :=
  if 2 ≤ st.hitTimes.length then
    let st4 := updateIOIStatistics p st
    if st4.warmupComplete = false ∧ p.minHitsForSeed ≤ st4.hitsSeen ∧ p.minHitsForSeed - 1 ≤ st4.ioiBuffer.length then
      { st4 with warmupComplete := true, period := st4.periodMedian, phase := 0, P00 := st4.periodMAD * st4.periodMAD, P11 := 1/100 }
    else st4
  else st

/-- Final block of `updateInstrumentState`: for a warm tracker run the
Kalman measurement update on the wrapped phase residual and clamp the
period into `[60/max_bpm, 60/min_bpm]`. -/
def clampAndUpdate (p : TrackerParams) (st : InstrumentState) :
    InstrumentState :=
  if st.warmupComplete = true then
    let st5 := kalmanUpdate p (wrapPhaseResidual (st.phase - 0)) st
    { st5 with period := max (minPeriod p) (min (maxPeriod p) st5.period) }
  else st

/-- Model of `InstrumentPredictor::updateInstrumentState` for an observed
hit: the three sequential blocks above. -/
def updateInstrumentState (p : TrackerParams) (frameCount : ℤ) (hit : Bool)
    (currentTime : ℚ) (st : InstrumentState) : InstrumentState :=
  if hit = false then st
  else clampAndUpdate p (seedIfReady p (pushHit frameCount currentTime st))

/-- One frame of `InstrumentPredictor::process` for one instrument: the
predict step is invoked unconditionally, the hit update only on a hit. -/
def instrumentFrame (p : TrackerParams) (frameCount : ℤ) (dt tNow : ℚ)
    (hit : Bool) (st : InstrumentState) : InstrumentState :=
  let st1 := kalmanPredict p dt st
  if hit = true then updateInstrumentState p frameCount true tNow st1 else st1

/-- A run of the tracker from the default state over a list of per-frame
hit flags; frame `n` is processed at audio time `n * dt`
(`_frameTimeSec = _frameCount * _hopSize / _sampleRate`). -/
def runFrames (p : TrackerParams) (dt : ℚ) (hits : List Bool) :
    InstrumentState :=
  (hits.foldl
    (fun acc hit =>
      (acc.1 + 1, instrumentFrame p acc.1 dt ((acc.1 : ℚ) * dt) hit acc.2))
    ((0 : ℤ), initInstrumentState)).2

/-- Parameters used by the concrete tracker runs below (all inside the
declared ranges except `qPeriod`, exaggerated to 1 to make the missing
covariance inflation visible). -/
def trackP5 : TrackerParams :=
  { minHitsForSeed := 8, minBpm := 60, maxBpm := 200, qPeriod := 1,
    qPhase := 0, rBase := 1/10000 }

/-- A warm tracker state (used to exercise the warm branch of the predict
step). -/
def trackSt5 : InstrumentState :=
  { initInstrumentState with warmupComplete := true }

/-- C5, counterexample.  For a non-warm instrument state the predict step
is an early-returning no-op: `P[0,0]` does not increase by
`q_period * dt` (here `q_period * dt = 1 ≠ 0`), contradicting the claim
that the predict step executes for every instrument state, warm or not. -/
theorem kalmanPredict_claim_false :
    kalmanPredict trackP5 1 initInstrumentState = initInstrumentState ∧
    initInstrumentState.P00 + trackP5.qPeriod * 1 ≠ initInstrumentState.P00 := by
  with_unfolding_all decide

/-- C5, amended.  The predict step is executed only for warm states: for a
warm state `P[0,0]` grows by `q_period·dt`, the phase advances (wrapped)
when `period > 1e-6`, and with `s = -dt/period²` the code inflates
`P[1,1]` by `q_phase·dt + s²·P[0,0]` and sets `P[0,1] = P[1,0] += s·P[0,0]`
(using the already-updated `P[0,0]`); for a non-warm state the whole
predict step is skipped. -/
theorem kalmanPredict_spec (p : TrackerParams) (dt : ℚ)
    (st : InstrumentState) :
    (st.warmupComplete = true →
      (kalmanPredict p dt st).P00 = st.P00 + p.qPeriod * dt ∧
      (kalmanPredict p dt st).phase =
        (if 1/1000000 < st.period then wrapPhase (st.phase + dt / st.period)
         else st.phase) ∧
      (kalmanPredict p dt st).P11 =
        st.P11 + p.qPhase * dt
          + (-dt / (st.period * st.period)) * (-dt / (st.period * st.period))
            * (st.P00 + p.qPeriod * dt) ∧
      (kalmanPredict p dt st).P01 =
        st.P01 + (-dt / (st.period * st.period)) * (st.P00 + p.qPeriod * dt) ∧
      (kalmanPredict p dt st).P10 = (kalmanPredict p dt st).P01 ∧
      (kalmanPredict p dt st).period = st.period) ∧
    (st.warmupComplete = false → kalmanPredict p dt st = st) := by
  constructor
  · intro h
    simp [kalmanPredict, h]
  · intro h
    simp [kalmanPredict, h]

/-- C5, witness: instantiate the amended theorem on a warm state (the
formulas hold) and on the fresh non-warm state (the step is the identity). -/
theorem kalmanPredict_spec_witness :
    ((kalmanPredict trackP5 1 trackSt5).P00
        = trackSt5.P00 + trackP5.qPeriod * 1 ∧
      (kalmanPredict trackP5 1 trackSt5).phase =
        (if 1/1000000 < trackSt5.period
         then wrapPhase (trackSt5.phase + 1 / trackSt5.period)
         else trackSt5.phase) ∧
      (kalmanPredict trackP5 1 trackSt5).P11 =
        trackSt5.P11 + trackP5.qPhase * 1
          + (-1 / (trackSt5.period * trackSt5.period))
            * (-1 / (trackSt5.period * trackSt5.period))
            * (trackSt5.P00 + trackP5.qPeriod * 1) ∧
      (kalmanPredict trackP5 1 trackSt5).P01 =
        trackSt5.P01 + (-1 / (trackSt5.period * trackSt5.period))
          * (trackSt5.P00 + trackP5.qPeriod * 1) ∧
      (kalmanPredict trackP5 1 trackSt5).P10
        = (kalmanPredict trackP5 1 trackSt5).P01 ∧
      (kalmanPredict trackP5 1 trackSt5).period = trackSt5.period) ∧
    kalmanPredict trackP5 1 initInstrumentState = initInstrumentState :=
  ⟨(kalmanPredict_spec trackP5 1 trackSt5).1 rfl,
    (kalmanPredict_spec trackP5 1 initInstrumentState).2 rfl⟩

/-- Indexing with a default inside the bounds yields a member of the list. -/
theorem getD_mem_of_lt (l : List ℚ) (i : ℕ) (hi : i < l.length) :
    l.getD i 0 ∈ l := by
  induction l generalizing i with
  | nil => simp at hi
  | cons x t ih =>
    cases i with
    | zero => simp
    | succ n =>
      simp only [List.getD_cons_succ]
      exact List.mem_cons_of_mem _ (ih n (by simpa using hi))

/-- A lower bound on every element of a nonempty list bounds its
`computeMedian`. -/
theorem computeMedian_ge (a : ℚ) (l : List ℚ) (hne : l ≠ [])
    (h : ∀ x ∈ l, a ≤ x) : a ≤ computeMedian l := by
  unfold computeMedian
  rw [if_neg hne]
  by_cases h1 : l.length = 1
  · rw [if_pos h1]
    cases l with
    | nil => exact absurd rfl hne
    | cons x t => simpa using h x (by simp)
  · rw [if_neg h1]
    have hlen : (l.insertionSort (· ≤ ·)).length = l.length :=
      List.length_insertionSort _ l
    have hperm := List.perm_insertionSort (· ≤ ·) l
    have hn : 1 ≤ l.length := by
      have := List.length_pos.mpr hne; omega
    have hbound : ∀ i, i < l.length → a ≤ (l.insertionSort (· ≤ ·)).getD i 0 := by
      intro i hi
      have hi2 : i < (l.insertionSort (· ≤ ·)).length := by omega
      exact h _ (hperm.mem_iff.mp (getD_mem_of_lt _ i hi2))
    by_cases hpar : l.length % 2 = 0
    · simp only [if_pos hpar]
      have b1 := hbound (l.length / 2 - 1) (by omega)
      have b2 := hbound (l.length / 2) (by omega)
      linarith
    · simp only [if_neg hpar]
      exact hbound (l.length / 2) (by omega)

/-- `computeMAD` is always nonnegative. -/
theorem computeMAD_nonneg (l : List ℚ) (m : ℚ) : 0 ≤ computeMAD l m := by
  unfold computeMAD
  by_cases hl : l = []
  · simp [hl]
  · rw [if_neg hl]
    have hne : l.map (fun v => |v - m|) ≠ [] := by
      simpa [List.map_eq_nil_iff] using hl
    have hmed : (0:ℚ) ≤ computeMedian (l.map fun v => |v - m|) := by
      apply computeMedian_ge 0 _ hne
      intro x hx
      obtain ⟨v, _, rfl⟩ := List.mem_map.mp hx
      exact abs_nonneg _
    have : (0:ℚ) ≤ (14826/10000 : ℚ) := by norm_num
    exact mul_nonneg this hmed

/-- Configuration assumptions used by the tracker invariant, all implied by
the declared parameter ranges (`min_bpm ∈ [30,120]`, `max_bpm ∈ [120,300]`,
`q_period, q_phase ∈ [1e-9,1e-3]`, `r_base ∈ [1e-6,1e-2]`,
`min_hits_for_seed ∈ [3,20]`). -/
def ParamsOK (p : TrackerParams) : Prop :=
  0 < p.minBpm ∧ p.minBpm ≤ p.maxBpm ∧ 0 ≤ p.qPeriod ∧ 0 ≤ p.qPhase ∧
  0 ≤ p.rBase ∧ 3 ≤ p.minHitsForSeed

/-- The inductive invariant of one instrument state: the covariance is
stored symmetrically, the robust MAD is nonnegative, a non-warm state
still has zero period-phase covariance, a filled IOI buffer certifies the
seed median, and a warm state has its period in the BPM band and both
covariance diagonal entries at least `1e-6`. -/
def TrackerInv (p : TrackerParams) (st : InstrumentState) : Prop :=
  st.P10 = st.P01 ∧
  0 ≤ st.periodMAD ∧
  (st.warmupComplete = false → st.P01 = 0) ∧
  (2 ≤ st.ioiBuffer.length → minPeriod p ≤ st.periodMedian) ∧
  (st.warmupComplete = true →
    minPeriod p ≤ st.period ∧ st.period ≤ maxPeriod p ∧
    1/1000000 ≤ st.P00 ∧ 1/1000000 ≤ st.P11)

theorem minPeriod_pos (p : TrackerParams) (h1 : 0 < p.minBpm)
    (h2 : p.minBpm ≤ p.maxBpm) : 0 < minPeriod p :=
  div_pos (by norm_num) (lt_of_lt_of_le h1 h2)

theorem minPeriod_le_maxPeriod (p : TrackerParams) (h1 : 0 < p.minBpm)
    (h2 : p.minBpm ≤ p.maxBpm) : minPeriod p ≤ maxPeriod p :=
  div_le_div_of_nonneg_left (by norm_num) h1 h2

/-- The tracker invariant holds for the default-constructed state. -/
theorem trackerInv_init (p : TrackerParams) : TrackerInv p initInstrumentState := by
  refine ⟨rfl, le_refl 0, fun _ => rfl, ?_, ?_⟩
  · intro hc; simp [initInstrumentState] at hc
  · intro hc; simp [initInstrumentState] at hc

/-- `updateIOIStatistics` leaves the Kalman state untouched, keeps the MAD
nonnegative, and certifies the median bound whenever the refreshed IOI
buffer holds at least two entries (every surviving IOI is at least
`60/max_bpm`). -/
theorem updateIOI_props (p : TrackerParams) (st : InstrumentState)
    (hmad : 0 ≤ st.periodMAD)
    (hmed : 2 ≤ st.ioiBuffer.length → minPeriod p ≤ st.periodMedian) :
    (updateIOIStatistics p st).warmupComplete = st.warmupComplete ∧
    (updateIOIStatistics p st).period = st.period ∧
    (updateIOIStatistics p st).phase = st.phase ∧
    (updateIOIStatistics p st).P00 = st.P00 ∧
    (updateIOIStatistics p st).P01 = st.P01 ∧
    (updateIOIStatistics p st).P10 = st.P10 ∧
    (updateIOIStatistics p st).P11 = st.P11 ∧
    (updateIOIStatistics p st).hitsSeen = st.hitsSeen ∧
    0 ≤ (updateIOIStatistics p st).periodMAD ∧
    (2 ≤ (updateIOIStatistics p st).ioiBuffer.length →
      minPeriod p ≤ (updateIOIStatistics p st).periodMedian) := by
  unfold updateIOIStatistics
  by_cases h1 : st.hitTimes.length < 2
  · simp only [if_pos h1]
    exact ⟨by trivial, by trivial, by trivial, by trivial, by trivial, by trivial, by trivial, by trivial, hmad, hmed⟩
  · simp only [if_neg h1]
    by_cases h2 : 2 ≤ (((st.hitTimes.zip st.hitTimes.tail).map
        fun ab => ab.2 - ab.1).filter fun ioi =>
          decide (minPeriod p ≤ ioi ∧ ioi ≤ maxPeriod p * 4)).length
    · simp only [if_pos h2]
      refine ⟨by trivial, by trivial, by trivial, by trivial, by trivial, by trivial, by trivial, by trivial, computeMAD_nonneg _ _, ?_⟩
      intro _
      apply computeMedian_ge
      · intro hnil
        rw [hnil] at h2
        simp at h2
      · intro x hx
        have hdec := (List.mem_filter.mp hx).2
        exact (of_decide_eq_true hdec).1
    · simp only [if_neg h2]
      refine ⟨by trivial, by trivial, by trivial, by trivial, by trivial, by trivial, by trivial, by trivial, hmad, ?_⟩
      intro hc
      exact absurd hc h2

/-- The predict step preserves the tracker invariant when the process
noise parameters and `dt` are nonnegative. -/
theorem kalmanPredict_inv (p : TrackerParams) (dt : ℚ) (st : InstrumentState)
    (hq1 : 0 ≤ p.qPeriod) (hq2 : 0 ≤ p.qPhase) (hdt : 0 ≤ dt)
    (h : TrackerInv p st) : TrackerInv p (kalmanPredict p dt st) := by
  unfold kalmanPredict
  by_cases hw : st.warmupComplete = false
  · simp only [if_pos hw]; exact h
  · simp only [if_neg hw]
    have hwt : st.warmupComplete = true := by
      revert hw; cases st.warmupComplete <;> simp
    obtain ⟨hP, hmad, hP01z, hmed, hwarm⟩ := h
    obtain ⟨hp1, hp2, hp3, hp4⟩ := hwarm hwt
    refine ⟨rfl, hmad, ?_, hmed, ?_⟩
    · intro hf
      simp only [hwt] at hf
      exact absurd hf (by simp)
    · intro _
      refine ⟨hp1, hp2, ?_, ?_⟩
      · show (1:ℚ)/1000000 ≤ st.P00 + p.qPeriod * dt
        have := mul_nonneg hq1 hdt
        linarith
      · show (1:ℚ)/1000000 ≤ st.P11 + p.qPhase * dt
          + (-dt / (st.period * st.period)) * (-dt / (st.period * st.period))
            * (st.P00 + p.qPeriod * dt)
        have h1 : (0:ℚ) ≤ (-dt / (st.period * st.period))
            * (-dt / (st.period * st.period)) := mul_self_nonneg _
        have h2 : (0:ℚ) ≤ st.P00 + p.qPeriod * dt := by
          have := mul_nonneg hq1 hdt; linarith
        have h3 := mul_nonneg h1 h2
        have h4 := mul_nonneg hq2 hdt
        linarith

/-- The measurement update clamps both covariance diagonal entries to at
least `1e-6`, keeps the covariance symmetric and does not touch the robust
statistics or the warm flag.  Under the stated hypotheses the innovation
covariance `S = P11 + R` is at least `1e-6`, so the numerical-stability
early return is never taken. -/
theorem kalmanUpdate_props (p : TrackerParams) (r : ℚ) (st : InstrumentState)
    (hr : 0 ≤ p.rBase) (hmad : 0 ≤ st.periodMAD) (hper : 0 < st.period)
    (hP11 : 1/1000000 ≤ st.P11) :
    1/1000000 ≤ (kalmanUpdate p r st).P00 ∧
    1/1000000 ≤ (kalmanUpdate p r st).P11 ∧
    (kalmanUpdate p r st).P10 = (kalmanUpdate p r st).P01 ∧
    (kalmanUpdate p r st).periodMAD = st.periodMAD ∧
    (kalmanUpdate p r st).warmupComplete = st.warmupComplete ∧
    (kalmanUpdate p r st).ioiBuffer = st.ioiBuffer ∧
    (kalmanUpdate p r st).periodMedian = st.periodMedian := by
  have hR : (0:ℚ) ≤ p.rBase * (1 + st.periodMAD / st.period) := by
    have h1 : (0:ℚ) ≤ st.periodMAD / st.period := div_nonneg hmad hper.le
    have h2 : (0:ℚ) ≤ 1 + st.periodMAD / st.period := by linarith
    exact mul_nonneg hr h2
  simp only [kalmanUpdate]
  split_ifs with h1 h2
  · exfalso
    have key : (0:ℚ) * 0 * st.P00 + 2 * 0 * 1 * st.P01 + 1 * 1 * st.P11
        + p.rBase * (1 + st.periodMAD / st.period)
        = st.P11 + p.rBase * (1 + st.periodMAD / st.period) := by ring
    rw [key] at h1
    linarith
  · exact ⟨le_max_left _ _, le_max_left _ _, rfl, rfl, rfl, rfl, rfl⟩
  · exact ⟨le_max_left _ _, le_max_left _ _, rfl, rfl, rfl, rfl, rfl⟩

/-- The push/cap block does not touch any field the invariant mentions. -/
theorem pushHit_inv (p : TrackerParams) (fc : ℤ) (t : ℚ)
    (st : InstrumentState) (h : TrackerInv p st) :
    TrackerInv p (pushHit fc t st) := by
  by_cases hc : 20 < (st.hitTimes ++ [t]).length
  · simp only [pushHit, if_pos hc]
    exact h
  · simp only [pushHit, if_neg hc]
    exact h

/-- The statistics/seeding block: the symmetry, MAD and median facts of
the invariant are preserved, and the Kalman state either is untouched or
has just been seeded, in which case the period is at least `60/max_bpm`,
the phase variance is `1/100`, and the period-phase covariance is zero. -/
theorem seedIfReady_cases (p : TrackerParams) (st : InstrumentState)
    (hmin3 : 3 ≤ p.minHitsForSeed) (h : TrackerInv p st) :
    ((seedIfReady p st).P10 = (seedIfReady p st).P01 ∧
      0 ≤ (seedIfReady p st).periodMAD ∧
      (2 ≤ (seedIfReady p st).ioiBuffer.length →
        minPeriod p ≤ (seedIfReady p st).periodMedian)) ∧
    (((seedIfReady p st).warmupComplete = st.warmupComplete ∧
      (seedIfReady p st).period = st.period ∧
      (seedIfReady p st).P00 = st.P00 ∧
      (seedIfReady p st).P01 = st.P01 ∧
      (seedIfReady p st).P11 = st.P11) ∨
     (st.warmupComplete = false ∧ (seedIfReady p st).warmupComplete = true ∧
      minPeriod p ≤ (seedIfReady p st).period ∧
      (seedIfReady p st).P11 = 1/100 ∧
      (seedIfReady p st).P01 = st.P01)) := by
  obtain ⟨hsym, hmad, hP01z, hmed, hwarm⟩ := h
  unfold seedIfReady
  by_cases hlen : 2 ≤ st.hitTimes.length
  · simp only [if_pos hlen]
    obtain ⟨hw', hper', hph', hp00', hp01', hp10', hp11', hhits', hmad', hmed'⟩ :=
      updateIOI_props p st hmad hmed
    by_cases hseed : (updateIOIStatistics p st).warmupComplete = false
        ∧ p.minHitsForSeed ≤ (updateIOIStatistics p st).hitsSeen
        ∧ p.minHitsForSeed - 1 ≤ (updateIOIStatistics p st).ioiBuffer.length
    · simp only [if_pos hseed]
      refine ⟨⟨?_, ?_, ?_⟩, Or.inr ⟨?_, ?_, ?_, ?_, ?_⟩⟩
      · show (updateIOIStatistics p st).P10 = (updateIOIStatistics p st).P01
        rw [hp01', hp10', hsym]
      · exact hmad'
      · exact hmed'
      · rw [← hw']; exact hseed.1
      · exact (by trivial)
      · show minPeriod p ≤ (updateIOIStatistics p st).periodMedian
        apply hmed'
        have := hseed.2.2
        omega
      · exact (by trivial)
      · exact hp01'
    · simp only [if_neg hseed]
      exact ⟨⟨by rw [hp01', hp10', hsym], hmad', hmed'⟩,
        Or.inl ⟨hw', hper', hp00', hp01', hp11'⟩⟩
  · simp only [if_neg hlen]
    exact ⟨⟨hsym, hmad, hmed⟩,
      Or.inl ⟨by trivial, by trivial, by trivial, by trivial, by trivial⟩⟩

/-- The measurement-update-and-clamp block restores the full invariant for
any state produced by the seeding block. -/
theorem clampAndUpdate_inv (p : TrackerParams) (st : InstrumentState)
    (hb1 : 0 < p.minBpm) (hb2 : p.minBpm ≤ p.maxBpm) (hrB : 0 ≤ p.rBase)
    (hP : st.P10 = st.P01) (hmad : 0 ≤ st.periodMAD)
    (hmed : 2 ≤ st.ioiBuffer.length → minPeriod p ≤ st.periodMedian)
    (hP01z : st.warmupComplete = false → st.P01 = 0)
    (hpre : st.warmupComplete = true → 0 < st.period ∧ 1/1000000 ≤ st.P11) :
    TrackerInv p (clampAndUpdate p st) := by
  by_cases hw : st.warmupComplete = true
  · simp only [clampAndUpdate, if_pos hw]
    obtain ⟨hper, hP11⟩ := hpre hw
    obtain ⟨u1, u2, u3, u4, u5, u6, u7⟩ :=
      kalmanUpdate_props p (wrapPhaseResidual (st.phase - 0)) st hrB hmad hper hP11
    refine ⟨u3, ?_, ?_, ?_, ?_⟩
    · show (0:ℚ) ≤ (kalmanUpdate p (wrapPhaseResidual (st.phase - 0)) st).periodMAD
      rw [u4]; exact hmad
    · intro hf
      exfalso
      have h2 : (kalmanUpdate p (wrapPhaseResidual (st.phase - 0)) st).warmupComplete = false := hf
      rw [u5, hw] at h2
      exact absurd h2 (by simp)
    · show 2 ≤ (kalmanUpdate p (wrapPhaseResidual (st.phase - 0)) st).ioiBuffer.length →
        minPeriod p ≤ (kalmanUpdate p (wrapPhaseResidual (st.phase - 0)) st).periodMedian
      rw [u6, u7]; exact hmed
    · intro _
      refine ⟨le_max_left _ _, ?_, u1, u2⟩
      exact max_le (minPeriod_le_maxPeriod p hb1 hb2) (min_le_left _ _)
  · simp only [clampAndUpdate, if_neg hw]
    exact ⟨hP, hmad, hP01z, hmed, fun hww => absurd hww hw⟩

/-- A full hit update (`updateInstrumentState`) preserves the invariant. -/
theorem updateInstrumentState_inv (p : TrackerParams) (fc : ℤ) (hit : Bool)
    (t : ℚ) (st : InstrumentState) (hok : ParamsOK p)
    (h : TrackerInv p st) :
    TrackerInv p (updateInstrumentState p fc hit t st) := by
  obtain ⟨hb1, hb2, hq1, hq2, hrB, hm3⟩ := hok
  by_cases hh : hit = false
  · simp only [updateInstrumentState, if_pos hh]; exact h
  · simp only [updateInstrumentState, if_neg hh]
    have h1 : TrackerInv p (pushHit fc t st) := pushHit_inv p fc t st h
    obtain ⟨⟨s1, s2, s3⟩, hcase⟩ := seedIfReady_cases p (pushHit fc t st) hm3 h1
    refine clampAndUpdate_inv p _ hb1 hb2 hrB s1 s2 s3 ?_ ?_
    · intro hf
      cases hcase with
      | inl hc =>
        have hpw : (pushHit fc t st).warmupComplete = false := by
          rw [← hc.1]; exact hf
        have hz := h1.2.2.1 hpw
        rw [hc.2.2.2.1]
        exact hz
      | inr hc =>
        rw [hc.2.1] at hf
        exact absurd hf (by simp)
    · intro hw
      cases hcase with
      | inl hc =>
        have hwp : (pushHit fc t st).warmupComplete = true := by
          rw [← hc.1]; exact hw
        obtain ⟨w1, w2, w3, w4⟩ := h1.2.2.2.2 hwp
        constructor
        · rw [hc.2.1]
          exact lt_of_lt_of_le (minPeriod_pos p hb1 hb2) w1
        · rw [hc.2.2.2.2]; exact w4
      | inr hc =>
        constructor
        · exact lt_of_lt_of_le (minPeriod_pos p hb1 hb2) hc.2.2.1
        · rw [hc.2.2.2.1]; norm_num

/-- One full processed frame (predict, then update on a hit) preserves the
invariant. -/
theorem instrumentFrame_inv (p : TrackerParams) (fc : ℤ) (dt t : ℚ)
    (hit : Bool) (st : InstrumentState) (hok : ParamsOK p) (hdt : 0 ≤ dt)
    (h : TrackerInv p st) :
    TrackerInv p (instrumentFrame p fc dt t hit st) := by
  have h1 := kalmanPredict_inv p dt st hok.2.2.1 hok.2.2.2.1 hdt h
  unfold instrumentFrame
  by_cases hh : hit = true
  · simp only [if_pos hh]
    exact updateInstrumentState_inv p fc true t _ hok h1
  · simp only [if_neg hh]
    exact h1

/-- The invariant holds after any run of the tracker. -/
theorem runFrames_inv (p : TrackerParams) (dt : ℚ) (hits : List Bool)
    (hok : ParamsOK p) (hdt : 0 ≤ dt) :
    TrackerInv p (runFrames p dt hits) := by
  unfold runFrames
  suffices haux : ∀ (l : List Bool) (n : ℤ) (st : InstrumentState),
      TrackerInv p st →
      TrackerInv p ((l.foldl
        (fun acc hit =>
          (acc.1 + 1, instrumentFrame p acc.1 dt ((acc.1 : ℚ) * dt) hit acc.2))
        (n, st)).2) by
    exact haux hits 0 initInstrumentState (trackerInv_init p)
  intro l
  induction l with
  | nil => intro n st h; exact h
  | cons b tl ih =>
    intro n st h
    simp only [List.foldl_cons]
    exact ih (n + 1) _ (instrumentFrame_inv p n dt _ b st hok hdt h)

/-- C8.  For every run of the tracker whose final state is warm, the period
lies in `[60/max_bpm, 60/min_bpm]`, the covariance is symmetric
(`P10 = P01`), and both covariance diagonal entries are at least `1e-6` —
including when the last frame is the seeding hit, where the period is
initialized from `periodMedian` and then clamped.  The hypotheses are the
declared configuration ranges (positive ordered BPM bounds, nonnegative
noise parameters, `min_hits_for_seed ≥ 3`) and a nonnegative frame step. -/
theorem trackerStateInvariant (p : TrackerParams) (dt : ℚ) (hits : List Bool)
    (hok : ParamsOK p) (hdt : 0 ≤ dt)
    (hw : (runFrames p dt hits).warmupComplete = true) :
    minPeriod p ≤ (runFrames p dt hits).period ∧
    (runFrames p dt hits).period ≤ maxPeriod p ∧
    (runFrames p dt hits).P10 = (runFrames p dt hits).P01 ∧
    1/1000000 ≤ (runFrames p dt hits).P00 ∧
    1/1000000 ≤ (runFrames p dt hits).P11 := by
  obtain ⟨hsym, _, _, _, hwarm⟩ := runFrames_inv p dt hits hok hdt
  obtain ⟨a, b, c, d⟩ := hwarm hw
  exact ⟨a, b, hsym, c, d⟩

/-- Tracker parameters for the witness run: `min_hits_for_seed = 3`,
BPM band `[60, 200]`, default noise parameters. -/
def trackPW : TrackerParams :=
  { minHitsForSeed := 3, minBpm := 60, maxBpm := 200,
    qPeriod := 1/1000000, qPhase := 1/100000000, rBase := 1/10000 }

/-- C8, witness: three consecutive hits at `dt = 1/2` seed the tracker on
the third hit; the invariant holds on the resulting warm state. -/
theorem trackerStateInvariant_witness :
    ParamsOK trackPW ∧ (0:ℚ) ≤ 1/2 ∧
    (runFrames trackPW (1/2) [true, true, true]).warmupComplete = true ∧
    (minPeriod trackPW ≤ (runFrames trackPW (1/2) [true, true, true]).period ∧
      (runFrames trackPW (1/2) [true, true, true]).period ≤ maxPeriod trackPW ∧
      (runFrames trackPW (1/2) [true, true, true]).P10
        = (runFrames trackPW (1/2) [true, true, true]).P01 ∧
      1/1000000 ≤ (runFrames trackPW (1/2) [true, true, true]).P00 ∧
      1/1000000 ≤ (runFrames trackPW (1/2) [true, true, true]).P11) :=
  ⟨⟨by norm_num [trackPW], by norm_num [trackPW], by norm_num [trackPW],
      by norm_num [trackPW], by norm_num [trackPW], by norm_num [trackPW]⟩,
    by norm_num,
    by with_unfolding_all decide,
    trackerStateInvariant trackPW (1/2) [true, true, true]
      ⟨by norm_num [trackPW], by norm_num [trackPW], by norm_num [trackPW],
        by norm_num [trackPW], by norm_num [trackPW], by norm_num [trackPW]⟩
      (by norm_num) (by with_unfolding_all decide)⟩

/-! ## Forecaster confidence: `InstrumentPredictor::computeConfidence`

This function calls `std::sqrt` and `std::exp`, so it is modelled over `ℝ`
with `Real.sqrt` and `Real.exp`. -/

/-- The fields of `InstrumentState` that `computeConfidence` reads, over
`ℝ`. -/
structure ConfState where
  period : ℝ
  periodMAD : ℝ
  P11 : ℝ
  lastHitTime : ℝ

/-- Model of `InstrumentPredictor::computeConfidence` (src lines 397-427):
`confidenceDecayRate` is the configured decay alpha, `frameTimeSec` the
current frame time (`_frameTimeSec`). -/
noncomputable def computeConfidence (confidenceDecayRate frameTimeSec : ℝ)
    (st : ConfState) : ℝ :=
  let cIOI : ℝ :=
    if 1/1000000 < st.period ∧ 0 < st.periodMAD then
      min 1 (max 0 (1 - st.periodMAD / st.period))
    else 0
  let cPhase : ℝ :=
    if 0 < st.P11 then min 1 (max 0 (1 - Real.sqrt st.P11 * 10))
    else 0
  let cRecency : ℝ :=
    if 0 < st.lastHitTime ∧ 1/1000000 < st.period then
      Real.exp (-(frameTimeSec - st.lastHitTime)
        / (confidenceDecayRate * st.period))
    else 1
  0.4 * cPhase + 0.3 * cIOI + 0.3 * cRecency

/-- The spec's `c_ioi` term: `clamp(1 - periodMAD/period, 0, 1)`. -/
noncomputable def cIOIspec (st : ConfState) : ℝ :=
  min 1 (max 0 (1 - st.periodMAD / st.period))

/-- The spec's `c_phase` term: `clamp(1 - 10·sqrt(P[1,1]), 0, 1)`. -/
noncomputable def cPhaseSpec (st : ConfState) : ℝ :=
  min 1 (max 0 (1 - 10 * Real.sqrt st.P11))

/-- The spec's `c_recency` term:
`exp(-(t_now - lastHitTime)/(alpha·period))`. -/
noncomputable def cRecencySpec (rate tNow : ℝ) (st : ConfState) : ℝ :=
  Real.exp (-(tNow - st.lastHitTime) / (rate * st.period))

/-- C4, counterexample.  For a state with `period = 1 > 1e-6`,
`periodMAD = 0`, `P11 = 1/100` and `lastHitTime = 0` at `t_now = 0`, the
code's confidence is `0.3` (its `c_ioi` is `0` because the `periodMAD > 0`
guard fails), whereas the claimed formula with
`c_ioi = clamp(1 - periodMAD/period, 0, 1) = 1` gives `0.6`. -/
theorem computeConfidence_claim_false :
    computeConfidence 1 0 ⟨1, 0, 1/100, 0⟩ = 0.3 ∧
    0.4 * cPhaseSpec ⟨1, 0, 1/100, 0⟩ + 0.3 * cIOIspec ⟨1, 0, 1/100, 0⟩
      + 0.3 * cRecencySpec 1 0 ⟨1, 0, 1/100, 0⟩ = 0.6 ∧
    (0.3 : ℝ) ≠ 0.6 := by
  have hsqrt : Real.sqrt (1/100) = 1/10 := by
    rw [show (1/100 : ℝ) = (1/10)^2 by norm_num,
      Real.sqrt_sq (by norm_num : (0:ℝ) ≤ 1/10)]
  refine ⟨?_, ?_, by norm_num⟩
  · simp only [computeConfidence]
    norm_num [hsqrt]
  · simp only [cPhaseSpec, cIOIspec, cRecencySpec]
    norm_num [hsqrt, Real.exp_zero]

/-- C4, amended.  For every state with `period > 1e-6` the confidence is
`0.4·c_phase + 0.3·c_ioi + 0.3·c_recency`, where `c_ioi` is
`clamp(1 - periodMAD/period, 0, 1)` only when `periodMAD > 0` and `0`
otherwise (in particular, when `periodMAD = 0` the `c_ioi` component is
`0`, not `1`); `c_phase` is the clamped phase term when `P11 > 0` and `0`
otherwise; `c_recency` is the exponential decay when `lastHitTime > 0` and
`1` otherwise. -/
theorem computeConfidence_spec (rate tNow : ℝ) (st : ConfState)
    (hper : 1/1000000 < st.period) :
    computeConfidence rate tNow st =
      0.4 * (if 0 < st.P11 then cPhaseSpec st else 0)
      + 0.3 * (if 0 < st.periodMAD then cIOIspec st else 0)
      + 0.3 * (if 0 < st.lastHitTime then cRecencySpec rate tNow st else 1) := by
  simp only [computeConfidence, cPhaseSpec, cIOIspec, cRecencySpec, hper,
    true_and, and_true]
  rw [mul_comm (Real.sqrt st.P11) 10]

/-- The state of the C4 witness: `period = 1`, `periodMAD = 1/2`,
`P11 = 0`, `lastHitTime = 0`. -/
noncomputable def confSt4 : ConfState := ⟨1, 1/2, 0, 0⟩

/-- C4, witness for the amended theorem, instantiated on `confSt4`. -/
theorem computeConfidence_spec_witness :
    (1/1000000 : ℝ) < confSt4.period ∧
    computeConfidence 1 0 confSt4 =
      0.4 * (if 0 < confSt4.P11 then cPhaseSpec confSt4 else 0)
      + 0.3 * (if 0 < confSt4.periodMAD then cIOIspec confSt4 else 0)
      + 0.3 * (if 0 < confSt4.lastHitTime then cRecencySpec 1 0 confSt4 else 1) :=
  ⟨by norm_num [confSt4], computeConfidence_spec 1 0 confSt4 (by norm_num [confSt4])⟩

/-! ## Mask table: `InstrumentSum::buildDefaultMasks`

The mask builder calls `log10`, `pow` and `cos`, so it is modelled over
`ℝ` with `Real.logb`, `Real.rpow` and `Real.cos`. -/

/-- `InstrumentSum::hzToMel`: `2595 * log10(1 + hz/700)`. -/
noncomputable def hzToMel (hz : ℝ) : ℝ := 2595 * Real.logb 10 (1 + hz / 700)

/-- `InstrumentSum::melToHz`: `700 * (10^(mel/2595) - 1)`. -/
noncomputable def melToHz (mel : ℝ) : ℝ := 700 * ((10:ℝ) ^ (mel / 2595) - 1)

/-- Band center frequencies: mel-spaced at half-band offsets over
`[0, nyquist]` (`buildDefaultMasks` lines 239-246). -/
noncomputable def bandCentersHz (numBands : ℕ) (nyquist : ℝ) : List ℝ :=
  (List.range numBands).map fun (i : ℕ) =>
    melToHz (hzToMel 0 + (hzToMel nyquist - hzToMel 0)
      * (((i : ℕ) : ℝ) + 0.5) / ((numBands : ℕ) : ℝ))

/-- The per-band weight of one flat-topped Hann lobe
(`InstrumentSum::addHannLobe` inner loop; the cosine argument uses the
source's double literal for pi). -/
noncomputable def hannLobeWeight (f1 f2 core1 core2 edge f : ℝ) : ℝ :=
  if core1 ≤ f ∧ f ≤ core2 then 1
  else if f1 ≤ f ∧ f < core1 then
    0.5 * (1 - Real.cos (3.14159265358979323846
      * ((f - f1) / max (1/1000000000) edge)))
  else if core2 < f ∧ f ≤ f2 then
    0.5 * (1 - Real.cos (3.14159265358979323846
      * ((f2 - f) / max (1/1000000000) edge)))
  else 0

/-- Model of `InstrumentSum::addHannLobe`: accumulate `weight` times the
Hann lobe over `[f1, f2]` into `dest`, band by band (the C++ loop indexes
`dest` and `bandCentersHz` in lockstep, modelled by `zipWith`; the two
lists always have equal length `numBands`). -/
noncomputable def addHannLobe (dest : List ℝ) (bandCenters : List ℝ)
    (f1 f2 weight rolloffFrac : ℝ) : List ℝ :=
  if f2 ≤ f1 then dest
  else
    let span := f2 - f1
    let edge := max 0 (min (span * rolloffFrac) (span * 0.49))
    let core1 := f1 + edge
    let core2 := f2 - edge
    dest.zipWith (fun d f => d + weight * hannLobeWeight f1 f2 core1 core2 edge f)
      bandCenters

/-- Model of `InstrumentSum::normalize`: scale to unit sum, but leave the
vector untouched when its sum is not positive. -/
noncomputable def normalize (v : List ℝ) : List ℝ :=
  let s := v.sum
  if s ≤ 0 then v else v.map fun x => x * (1 / s)

/-- The five fixed lobe tables (kick, snare, clap, chat, ohc): intervals
in Hz with weights. -/
noncomputable def instrumentLobes : List (List (ℝ × ℝ × ℝ)) :=
  [ [(40, 75, 0.75)],
    [(180, 280, 0.35), (350, 600, 0.10), (2000, 5000, 0.35),
      (6000, 10000, 0.20)],
    [(800, 1600, 0.30), (2000, 6000, 0.50), (6000, 10000, 0.20)],
    [(3000, 6000, 0.25), (7000, 12000, 0.55), (12000, 16000, 0.20)],
    [(3000, 6000, 0.25), (6000, 12000, 0.50), (12000, 16000, 0.25)] ]

/-- Model of `InstrumentSum::buildDefaultMasks`: for each instrument, sum
its Hann lobes over the band centers and normalize the row. -/
noncomputable def buildDefaultMasks (numBands : ℕ) (nyquist lobeRolloff : ℝ) :
    List (List ℝ) :=
  let centers := bandCentersHz numBands nyquist
  instrumentLobes.map fun lobes =>
    normalize (lobes.foldl
      (fun dest l => addHannLobe dest centers l.1 l.2.1 l.2.2 lobeRolloff)
      (List.replicate numBands 0))

/-- A Hann lobe weight is nonnegative (the cosine is at most 1). -/
theorem hannLobeWeight_nonneg (f1 f2 c1 c2 e f : ℝ) :
    0 ≤ hannLobeWeight f1 f2 c1 c2 e f := by
  unfold hannLobeWeight
  split_ifs
  · norm_num
  · have hc := Real.cos_le_one (3.14159265358979323846
      * ((f - f1) / max (1/1000000000) e))
    nlinarith
  · have hc := Real.cos_le_one (3.14159265358979323846
      * ((f2 - f) / max (1/1000000000) e))
    nlinarith
  · exact le_refl 0

/-- A band strictly below the lobe interval gets zero weight. -/
theorem hannLobeWeight_zero_below (f1 f2 c1 c2 e f : ℝ) (h1 : f < f1)
    (h2 : f < c1) (h3 : f ≤ c2) : hannLobeWeight f1 f2 c1 c2 e f = 0 := by
  unfold hannLobeWeight
  split_ifs with hA hB hC
  · exact absurd hA.1 (by linarith)
  · exact absurd hB.1 (by linarith)
  · exact absurd hC.1 (by linarith)
  · rfl

/-- A band strictly above the lobe interval gets zero weight. -/
theorem hannLobeWeight_zero_above (f1 f2 c1 c2 e f : ℝ) (h1 : f2 < f)
    (h2 : c1 ≤ f2) (h3 : c2 ≤ f2) : hannLobeWeight f1 f2 c1 c2 e f = 0 := by
  unfold hannLobeWeight
  split_ifs with hA hB hC
  · exact absurd hA.2 (by linarith)
  · exact absurd hB.2 (by linarith)
  · exact absurd hC.2 (by linarith)
  · rfl

/-- Adding a pointwise-zero contribution leaves the accumulator unchanged
(when the center list is at least as long). -/
theorem zipWith_add_eq_self :
    ∀ (dest centers : List ℝ) (g : ℝ → ℝ),
      dest.length ≤ centers.length → (∀ f ∈ centers, g f = 0) →
      dest.zipWith (fun d f => d + g f) centers = dest := by
  intro dest
  induction dest with
  | nil => intro centers g _ _; rfl
  | cons d ds ih =>
    intro centers g hlen hg
    cases centers with
    | nil => simp at hlen
    | cons c cs =>
      simp only [List.zipWith_cons_cons]
      rw [hg c (by simp), add_zero,
        ih cs g (by simpa using hlen) (fun f hf => hg f (by simp [hf]))]

/-- Pointwise nonnegativity is preserved by accumulating a nonnegative
contribution. -/
theorem zipWith_add_nonneg :
    ∀ (dest centers : List ℝ) (g : ℝ → ℝ),
      (∀ f, 0 ≤ g f) → (∀ x ∈ dest, 0 ≤ x) →
      ∀ x ∈ dest.zipWith (fun d f => d + g f) centers, 0 ≤ x := by
  intro dest
  induction dest with
  | nil => intro centers g _ _ x hx; simp at hx
  | cons d ds ih =>
    intro centers g hgpos hd x hx
    cases centers with
    | nil => simp at hx
    | cons c cs =>
      simp only [List.zipWith_cons_cons, List.mem_cons] at hx
      cases hx with
      | inl h =>
        subst h
        have := hd d (by simp)
        have := hgpos c
        linarith
      | inr h =>
        exact ih cs g hgpos (fun y hy => hd y (by simp [hy])) x h

/-- `addHannLobe` with nonnegative lobe weight preserves pointwise
nonnegativity of the accumulator. -/
theorem addHannLobe_nonneg (dest centers : List ℝ) (f1 f2 w r : ℝ)
    (hw : 0 ≤ w) (hd : ∀ x ∈ dest, 0 ≤ x) :
    ∀ x ∈ addHannLobe dest centers f1 f2 w r, 0 ≤ x := by
  unfold addHannLobe
  by_cases hc : f2 ≤ f1
  · simp only [if_pos hc]; exact hd
  · simp only [if_neg hc]
    exact zipWith_add_nonneg dest centers _
      (fun f => mul_nonneg hw (hannLobeWeight_nonneg _ _ _ _ _ f)) hd

/-- When every band center lies strictly above the lobe's upper edge `f2`,
the lobe contributes nothing. -/
theorem addHannLobe_of_above (dest centers : List ℝ) (f1 f2 w r : ℝ)
    (hlen : dest.length ≤ centers.length) (hf : f1 < f2)
    (hall : ∀ f ∈ centers, f2 < f) :
    addHannLobe dest centers f1 f2 w r = dest := by
  unfold addHannLobe
  rw [if_neg (by linarith)]
  apply zipWith_add_eq_self dest centers _ hlen
  intro f hfmem
  have hspan : (0:ℝ) < f2 - f1 := by linarith
  have hedge0 : (0:ℝ) ≤ max 0 (min ((f2 - f1) * r) ((f2 - f1) * 0.49)) :=
    le_max_left _ _
  have hedgehi : max 0 (min ((f2 - f1) * r) ((f2 - f1) * 0.49))
      ≤ (f2 - f1) * 0.49 := by
    apply max_le
    · nlinarith
    · exact min_le_right _ _
  rw [hannLobeWeight_zero_above _ _ _ _ _ f (hall f hfmem) (by nlinarith)
    (by nlinarith), mul_zero]

/-- Sum of a right-scaled list. -/
theorem sum_map_mul_right_q (l : List ℝ) (c : ℝ) :
    (l.map fun x => x * c).sum = l.sum * c := by
  induction l with
  | nil => simp
  | cons a t ih => simp [ih, add_mul]

/-- For a vector of nonnegative entries `normalize` yields a vector of
nonnegative entries whose sum is exactly 1, unless the input sums to 0, in
which case it is returned unchanged. -/
theorem normalize_cases (v : List ℝ) (hv : ∀ x ∈ v, 0 ≤ x) :
    (∀ x ∈ normalize v, 0 ≤ x) ∧
    ((normalize v).sum = 1 ∨ (normalize v).sum = 0) := by
  unfold normalize
  by_cases hs : v.sum ≤ 0
  · simp only [if_pos hs]
    exact ⟨hv, Or.inr (le_antisymm hs (List.sum_nonneg hv))⟩
  · simp only [if_neg hs]
    push_neg at hs
    constructor
    · intro x hx
      obtain ⟨y, hy, rfl⟩ := List.mem_map.mp hx
      exact mul_nonneg (hv y hy) (by positivity)
    · left
      rw [sum_map_mul_right_q]
      field_simp

/-- Indexing with a default is a member or the default (any type). -/
theorem getD_mem_or {α : Type} (l : List α) (i : ℕ) (d : α) :
    l.getD i d ∈ l ∨ l.getD i d = d := by
  induction l generalizing i with
  | nil => right; cases i <;> rfl
  | cons x t ih =>
    cases i with
    | zero => left; simp
    | succ n =>
      rcases ih n with h | h
      · left
        simp only [List.getD_cons_succ]
        exact List.mem_cons_of_mem _ h
      · right; simpa using h

/-- Every mask row is pointwise nonnegative and sums to 1 or to 0. -/
theorem buildDefaultMasks_rows (numBands : ℕ) (nyquist lobeRolloff : ℝ) :
    ∀ row ∈ buildDefaultMasks numBands nyquist lobeRolloff,
      (∀ x ∈ row, 0 ≤ x) ∧ (row.sum = 1 ∨ row.sum = 0) := by
  intro row hrow
  unfold buildDefaultMasks at hrow
  obtain ⟨lobes, hlobes, rfl⟩ := List.mem_map.mp hrow
  apply normalize_cases
  have hw : ∀ l ∈ lobes, 0 ≤ l.2.2 := by
    simp only [instrumentLobes, List.mem_cons, List.not_mem_nil,
      or_false] at hlobes
    rcases hlobes with rfl | rfl | rfl | rfl | rfl <;>
      · intro l hl
        fin_cases hl <;> norm_num
  have hfold : ∀ (ls : List (ℝ × ℝ × ℝ)) (dest : List ℝ),
      (∀ l ∈ ls, 0 ≤ l.2.2) → (∀ x ∈ dest, 0 ≤ x) →
      ∀ x ∈ ls.foldl
        (fun dest l => addHannLobe dest (bandCentersHz numBands nyquist)
          l.1 l.2.1 l.2.2 lobeRolloff) dest, 0 ≤ x := by
    intro ls
    induction ls with
    | nil => intro dest _ hd; simpa using hd
    | cons a t ih =>
      intro dest hls hd
      simp only [List.foldl_cons]
      exact ih _ (fun l hl => hls l (by simp [hl]))
        (addHannLobe_nonneg _ _ _ _ _ _ (hls a (by simp)) hd)
  exact hfold lobes _ hw
    (fun x hx => by simp [List.eq_of_mem_replicate hx])

/-- C6, amended.  For every configuration `(numBands, nyquist,
lobeRolloff)` every entry of every instrument weight row is nonnegative,
and every row sums exactly to 1 — except rows in which no band center
receives positive weight, which are left unnormalized and sum to 0
(`normalize` returns early when the accumulated sum is not positive). -/
theorem maskRows_spec (numBands : ℕ) (nyquist lobeRolloff : ℝ) (i j : ℕ) :
    0 ≤ ((buildDefaultMasks numBands nyquist lobeRolloff).getD i []).getD j 0 ∧
    (((buildDefaultMasks numBands nyquist lobeRolloff).getD i []).sum = 1 ∨
      ((buildDefaultMasks numBands nyquist lobeRolloff).getD i []).sum = 0) := by
  rcases getD_mem_or (buildDefaultMasks numBands nyquist lobeRolloff) i []
    with hmem | hdef
  · obtain ⟨hnn, hsum⟩ :=
      buildDefaultMasks_rows numBands nyquist lobeRolloff _ hmem
    refine ⟨?_, hsum⟩
    rcases getD_mem_or
      ((buildDefaultMasks numBands nyquist lobeRolloff).getD i []) j 0
      with hm2 | hd2
    · exact hnn _ hm2
    · rw [hd2]
  · rw [hdef]
    exact ⟨by simp, Or.inr (by simp)⟩

/-- With `numBands = 1` and `nyquist = 4000` the band-center list is the
single mel midpoint. -/
theorem bandCenters_one : bandCentersHz 1 4000 = [melToHz (hzToMel 4000 / 2)] := by
  have hr : List.range 1 = [0] := by decide
  unfold bandCentersHz
  rw [hr, List.map_cons, List.map_nil]
  have h0 : hzToMel 0 = 0 := by
    unfold hzToMel
    norm_num
  have harg : hzToMel 0 + (hzToMel 4000 - hzToMel 0) * (((0:ℕ):ℝ) + 0.5)
      / ((1:ℕ):ℝ) = hzToMel 4000 / 2 := by
    rw [h0]; push_cast; ring
  rw [harg]

/-- With `numBands = 1` and `nyquist = 4000` the single band center (the
mel midpoint) lies strictly above 75 Hz, the top of the kick lobe. -/
theorem kickCenter_above : ∀ f ∈ bandCentersHz 1 4000, 75 < f := by
  intro f hf
  rw [bandCenters_one] at hf
  simp only [List.mem_singleton] at hf
  subst hf
  unfold melToHz hzToMel
  have hb : (1:ℝ) + 4000 / 700 = 47/7 := by norm_num
  rw [hb]
  have hexp : 2595 * Real.logb 10 (47/7) / 2 / 2595
      = Real.logb 10 (47/7) / 2 := by ring
  rw [hexp]
  have hpow : ((10:ℝ) ^ (Real.logb 10 (47/7) / 2)) ^ (2:ℕ) = 47/7 := by
    rw [← Real.rpow_natCast ((10:ℝ) ^ (Real.logb 10 (47/7) / 2)) 2,
      ← Real.rpow_mul (by norm_num : (0:ℝ) ≤ 10)]
    have h2 : Real.logb 10 (47/7) / 2 * ((2:ℕ):ℝ) = Real.logb 10 (47/7) := by
      push_cast; ring
    rw [h2]
    exact Real.rpow_logb (by norm_num) (by norm_num) (by norm_num)
  have hpos : (0:ℝ) < (10:ℝ) ^ (Real.logb 10 (47/7) / 2) :=
    Real.rpow_pos_of_pos (by norm_num) _
  have hgt : (31/28 : ℝ) < (10:ℝ) ^ (Real.logb 10 (47/7) / 2) := by
    apply lt_of_pow_lt_pow_left₀ 2 (le_of_lt hpos)
    rw [hpow]
    norm_num
  linarith

/-- C6, counterexample.  With the accepted configuration `numBands = 1`,
`nyquist = 4000` (inside the declared range `[4000, 96000]`),
`lobeRolloff = 0.15` (the default), the kick row of the mask table is
`[0]`: its sum is 0, not 1 within `1e-6`, because the single band center
misses the kick lobe `[40, 75]` and `normalize` skips a zero-sum row. -/
theorem maskRow_claim_false :
    ((buildDefaultMasks 1 4000 0.15).getD 0 []).sum = 0 ∧
    ¬(|((buildDefaultMasks 1 4000 0.15).getD 0 []).sum - 1| ≤ 1/1000000) := by
  have hkick : (buildDefaultMasks 1 4000 0.15).getD 0 []
      = normalize (addHannLobe (List.replicate 1 0) (bandCentersHz 1 4000)
          40 75 0.75 0.15) := by
    simp [buildDefaultMasks, instrumentLobes]
  have hlen : (List.replicate 1 (0:ℝ)).length
      ≤ (bandCentersHz 1 4000).length := by
    rw [bandCenters_one]
    simp
  have hadd : addHannLobe (List.replicate 1 0) (bandCentersHz 1 4000)
      40 75 0.75 0.15 = List.replicate 1 0 :=
    addHannLobe_of_above _ _ _ _ _ _ hlen (by norm_num)
      (fun f hf => kickCenter_above f hf)
  have hnorm : normalize (List.replicate 1 (0:ℝ)) = List.replicate 1 0 := by
    unfold normalize
    simp
  rw [hkick, hadd, hnorm]
  constructor
  · simp
  · simp
    norm_num

/-! ## Lighting filter: `LightingEngine`

All arithmetic in the filter is comparisons and subtraction plus the
`round(tPred*100)` of the event fingerprint, so the component is modelled
over `ℚ`.  The declared parameter ranges are `confidence_threshold ∈
[0,1]`, `max_latency_sec ∈ [0.1,10]`, `min_latency_sec ∈ [0.01,1]`,
`duplicate_window_sec ∈ [0.01,1]`. -/

/-- The dedup fingerprint produced by `LightingEngine::generateEventId`:
the instrument name together with the rounded time printed at two
decimals.  The printed string is determined by `std::round(tPred*100)`
(half away from zero) plus the sign of the C++ negative zero: rounding a
negative value to zero prints `-0.00`, which differs from `0.00`. -/
structure EventId where
  instrument : String
  centi : ℤ
  negZero : Bool
deriving DecidableEq

/-- Model of `LightingEngine::generateEventId`. -/
def generateEventId (instrument : String) (tPredSec : ℚ) : EventId :=
  { instrument := instrument,
    centi := roundAway (tPredSec * 100),
    negZero := decide (roundAway (tPredSec * 100) = 0 ∧ tPredSec * 100 < 0) }

/-- A lighting command (struct `LightingCommand`). -/
structure LightingCommand where
  instrument : String
  tPredSec : ℚ
  confidence : ℚ
  r : ℤ
  g : ℤ
  b : ℤ
  eventId : EventId
deriving DecidableEq

/-- Model of `LightingEngine::mapInstrumentToColor`. -/
def mapInstrumentToColor (instrument : String) : ℤ × ℤ × ℤ :=
  if instrument = "kick" then (1, 0, 0)
  else if instrument = "snare" then (0, 1, 0)
  else (0, 0, 1)

/-- One predicted hit (struct `PredictionHit`). -/
structure PredictionHit where
  tPredSec : ℚ
  ciLowSec : ℚ
  ciHighSec : ℚ
  confidence : ℚ
  hitIndex : ℤ
deriving DecidableEq

/-- Per-instrument prediction entry (struct `InstrumentPrediction`). -/
structure InstrumentPrediction where
  instrument : String
  tempoBpm : ℚ
  periodSec : ℚ
  phase : ℚ
  confidenceGlobal : ℚ
  warmupComplete : Bool
  hits : List PredictionHit
deriving DecidableEq

/-- One frame after the predictor (struct `PredictionOutput`). -/
structure PredictionOutput where
  timestampSec : ℚ
  frameIdx : ℤ
  predictions : List InstrumentPrediction
deriving DecidableEq

/-- Filter configuration (`LightingEngine::configure`). -/
structure LightingParams where
  confidenceThreshold : ℚ
  maxLatencySec : ℚ
  minLatencySec : ℚ
  duplicateWindowSec : ℚ
deriving DecidableEq

/-- The `_sentEvents` map (`std::map<std::string, SentEvent>`, storing the
prediction time per event id), modelled as a key-unique association
list. -/
def mapFind (m : List (EventId × ℚ)) (k : EventId) : Option ℚ :=
  (m.find? fun kv => decide (kv.1 = k)).map Prod.snd

/-- `std::map::operator[]` assignment: replace the value if the key is
present, append otherwise. -/
def mapInsert (m : List (EventId × ℚ)) (k : EventId) (v : ℚ) :
    List (EventId × ℚ) :=
  if (m.find? fun kv => decide (kv.1 = k)).isSome then
    m.map fun kv => if kv.1 = k then (k, v) else kv
  else m ++ [(k, v)]

/-- Mutable filter state. -/
structure LightingState where
  sentEvents : List (EventId × ℚ)
  cleanupCounter : ℕ
  currentTimeSec : ℚ
  frameCount : ℕ
deriving DecidableEq

/-- Filter state after `LightingEngine::reset` (`_currentTimeSec = 0`). -/
def initLightingState : LightingState :=
  { sentEvents := [], cleanupCounter := 0, currentTimeSec := 0, frameCount := 0 }

/-- Model of `LightingEngine::shouldSendCommand`: confidence gate, latency
window, then the duplicate check against the sent-map. -/
def shouldSendCommand (p : LightingParams) (sentEvents : List (EventId × ℚ))
    (currentTimeSec : ℚ) (confidence tPredSec : ℚ) (eventId : EventId) :
    Bool :=
  if confidence < p.confidenceThreshold then false
  else
    let latency := tPredSec - currentTimeSec
    if latency < p.minLatencySec ∨ p.maxLatencySec < latency then false
    else
      match mapFind sentEvents eventId with
      | some sentT =>
        if tPredSec - sentT < p.duplicateWindowSec then false else true
      | none => true

/-- Model of `LightingEngine::cleanupOldEvents`: erase entries whose
prediction time has passed by more than the duplicate window. -/
def cleanupOldEvents (duplicateWindowSec currentTime : ℚ)
    (m : List (EventId × ℚ)) : List (EventId × ℚ) :=
  m.filter fun kv => !(decide (duplicateWindowSec < currentTime - kv.2))

/-- The body of the inner hit loop of
`LightingEngine::processPredictionOutput`: build the command, filter it,
append it to the output only for `"kick"`, and record the fingerprint in
the sent-map for every command that passed the checks. -/
def processHit (p : LightingParams) (currentTime : ℚ) (instrument : String)
    (hit : PredictionHit) (acc : List (EventId × ℚ) × List LightingCommand) :
    List (EventId × ℚ) × List LightingCommand :=
  let color := mapInstrumentToColor instrument
  let eid := generateEventId instrument hit.tPredSec
  let cmd : LightingCommand :=
    { instrument := instrument, tPredSec := hit.tPredSec,
      confidence := hit.confidence, r := color.1, g := color.2.1,
      b := color.2.2, eventId := eid }
  if shouldSendCommand p acc.1 currentTime cmd.confidence cmd.tPredSec eid
      = false then acc
  else
    let cmds := if cmd.instrument = "kick" then acc.2 ++ [cmd] else acc.2
    (mapInsert acc.1 eid cmd.tPredSec, cmds)

/-- Model of `LightingEngine::processPredictionOutput` (plus the
`_frameCount++` of `process`): set the frame time, run the batched
50-frame cleanup, then filter every hit of every instrument prediction. -/
def processPredictionOutput (p : LightingParams) (st : LightingState)
    (output : PredictionOutput) : LightingState × List LightingCommand :=
  let currentTime := output.timestampSec
  let counter1 := st.cleanupCounter + 1
  let cleaned :=
    if 50 ≤ counter1 then
      (cleanupOldEvents p.duplicateWindowSec currentTime st.sentEvents, 0)
    else (st.sentEvents, counter1)
  let folded := output.predictions.foldl
    (fun acc pred =>
      pred.hits.foldl (fun a h => processHit p currentTime pred.instrument h a)
        acc)
    (cleaned.1, ([] : List LightingCommand))
  ({ sentEvents := folded.1, cleanupCounter := cleaned.2,
     currentTimeSec := currentTime, frameCount := st.frameCount + 1 },
   folded.2)

/-- A run of the filter over the (nonempty) prediction outputs of
successive frames, collecting every emitted command. -/
def runLighting (p : LightingParams) (outputs : List PredictionOutput) :
    LightingState × List LightingCommand :=
  outputs.foldl
    (fun acc out =>
      let r := processPredictionOutput p acc.1 out
      (r.1, acc.2 ++ r.2))
    (initLightingState, [])

theorem findq_cons_pos (p : EventId × ℚ → Bool) (a : EventId × ℚ)
    (l : List (EventId × ℚ)) (h : p a = true) :
    (a :: l).find? p = some a :=
  List.find?_cons_of_pos l h

theorem findq_cons_neg (p : EventId × ℚ → Bool) (a : EventId × ℚ)
    (l : List (EventId × ℚ)) (h : ¬ p a = true) :
    (a :: l).find? p = l.find? p :=
  List.find?_cons_of_neg l h

theorem mapFind_some_mem (m : List (EventId × ℚ)) (k : EventId) (t : ℚ)
    (h : mapFind m k = some t) : (k, t) ∈ m := by
  unfold mapFind at h
  rw [Option.map_eq_some'] at h
  obtain ⟨kv, hfind, hsnd⟩ := h
  have hmem := List.mem_of_find?_eq_some hfind
  have hpred := List.find?_some hfind
  have hk : kv.1 = k := of_decide_eq_true hpred
  cases kv with
  | mk a b =>
    simp only at hk hsnd
    rw [← hk, ← hsnd]
    exact hmem

theorem mapFind_none_iff (m : List (EventId × ℚ)) (k : EventId) :
    mapFind m k = none ↔ ∀ kv ∈ m, kv.1 ≠ k := by
  unfold mapFind
  rw [Option.map_eq_none', List.find?_eq_none]
  constructor
  · intro h kv hm
    have := h kv hm
    simpa using this
  · intro h kv hm
    simpa using h kv hm

theorem mapFind_eq_of_mem (m : List (EventId × ℚ)) (kv : EventId × ℚ)
    (hm : kv ∈ m) (hnd : (m.map Prod.fst).Nodup) :
    mapFind m kv.1 = some kv.2 := by
  induction m with
  | nil => simp at hm
  | cons a t ih =>
    simp only [List.map_cons, List.nodup_cons] at hnd
    rcases List.mem_cons.mp hm with rfl | hmem
    · unfold mapFind
      rw [List.find?_cons_of_pos _ (by simp)]
      rfl
    · have hne : ¬((fun x => decide (x.1 = kv.1)) a = true) := by
        simp only [decide_eq_true_eq]
        intro he
        exact hnd.1 (he ▸ List.mem_map_of_mem Prod.fst hmem)
      unfold mapFind
      rw [findq_cons_neg (fun x => decide (x.1 = kv.1)) a t hne]
      exact ih hmem hnd.2

theorem find?_map_update (k : EventId) (v : ℚ) :
    ∀ m : List (EventId × ℚ),
      (m.find? fun kv => decide (kv.1 = k)).isSome = true →
      ((m.map fun kv => if kv.1 = k then (k, v) else kv).find?
        fun kv => decide (kv.1 = k)) = some (k, v) := by
  intro m
  induction m with
  | nil => intro h; simp [List.find?] at h
  | cons a t ih =>
    intro h
    by_cases hk : a.1 = k
    · simp only [List.map_cons, if_pos hk]
      rw [List.find?_cons_of_pos _ (by simp)]
    · simp only [List.map_cons, if_neg hk]
      rw [List.find?_cons_of_neg _ (by simp [hk])]
      apply ih
      rw [List.find?_cons_of_neg _ (by simp [hk])] at h
      exact h

theorem find?_map_update_other (k : EventId) (v : ℚ) (e : EventId)
    (hne : e ≠ k) :
    ∀ m : List (EventId × ℚ),
      ((m.map fun kv => if kv.1 = k then (k, v) else kv).find?
        fun kv => decide (kv.1 = e))
      = m.find? fun kv => decide (kv.1 = e) := by
  intro m
  induction m with
  | nil => rfl
  | cons a t ih =>
    by_cases hk : a.1 = k
    · simp only [List.map_cons, if_pos hk]
      rw [List.find?_cons_of_neg _ (by simp [Ne.symm hne]),
        List.find?_cons_of_neg _ (by simp [hk, Ne.symm hne])]
      exact ih
    · simp only [List.map_cons, if_neg hk]
      by_cases he : a.1 = e
      · rw [List.find?_cons_of_pos _ (by simp [he]),
          List.find?_cons_of_pos _ (by simp [he])]
      · rw [List.find?_cons_of_neg _ (by simp [he]),
          List.find?_cons_of_neg _ (by simp [he])]
        exact ih

theorem find?_append_right_none (k : EventId) (v : ℚ) :
    ∀ m : List (EventId × ℚ),
      (m.find? fun kv => decide (kv.1 = k)) = none →
      ((m ++ [(k, v)]).find? fun kv => decide (kv.1 = k)) = some (k, v) := by
  intro m
  induction m with
  | nil =>
    intro _
    rw [List.nil_append, List.find?_cons_of_pos _ (by simp)]
  | cons a t ih =>
    intro h
    have hne : ¬((fun kv => decide (kv.1 = k)) a = true) := by
      intro hp
      rw [findq_cons_pos (fun kv => decide (kv.1 = k)) a t hp] at h
      simp at h
    rw [List.cons_append,
      findq_cons_neg (fun kv => decide (kv.1 = k)) a (t ++ [(k, v)]) hne]
    rw [findq_cons_neg (fun kv => decide (kv.1 = k)) a t hne] at h
    exact ih h

theorem find?_append_right_other (k : EventId) (v : ℚ) (e : EventId)
    (hne : e ≠ k) (m : List (EventId × ℚ)) :
    ((m ++ [(k, v)]).find? fun kv => decide (kv.1 = e))
      = m.find? fun kv => decide (kv.1 = e) := by
  induction m with
  | nil =>
    rw [List.nil_append, List.find?_cons_of_neg _ (by simp [Ne.symm hne])]
  | cons a t ih =>
    by_cases he : a.1 = e
    · rw [List.cons_append, List.find?_cons_of_pos _ (by simp [he]),
        List.find?_cons_of_pos _ (by simp [he])]
    · rw [List.cons_append, List.find?_cons_of_neg _ (by simp [he]),
        List.find?_cons_of_neg _ (by simp [he])]
      exact ih

theorem mapFind_insert_self (m : List (EventId × ℚ)) (k : EventId) (v : ℚ) :
    mapFind (mapInsert m k v) k = some v := by
  unfold mapInsert mapFind
  by_cases hp : (m.find? fun kv => decide (kv.1 = k)).isSome = true
  · rw [if_pos hp, find?_map_update k v m hp]
    rfl
  · rw [if_neg hp, find?_append_right_none k v m
      (by revert hp; cases m.find? fun kv => decide (kv.1 = k) <;> simp)]
    rfl

theorem mapFind_insert_other (m : List (EventId × ℚ)) (k : EventId) (v : ℚ)
    (e : EventId) (hne : e ≠ k) :
    mapFind (mapInsert m k v) e = mapFind m e := by
  unfold mapInsert mapFind
  by_cases hp : (m.find? fun kv => decide (kv.1 = k)).isSome = true
  · rw [if_pos hp, find?_map_update_other k v e hne m]
  · rw [if_neg hp, find?_append_right_other k v e hne m]

theorem mapInsert_nodupKeys (m : List (EventId × ℚ)) (k : EventId) (v : ℚ)
    (h : (m.map Prod.fst).Nodup) :
    ((mapInsert m k v).map Prod.fst).Nodup := by
  unfold mapInsert
  by_cases hp : (m.find? fun kv => decide (kv.1 = k)).isSome = true
  · rw [if_pos hp]
    have heq : (m.map fun kv => if kv.1 = k then (k, v) else kv).map Prod.fst
        = m.map Prod.fst := by
      rw [List.map_map]
      apply List.map_congr_left
      intro kv _
      by_cases hk : kv.1 = k
      · simp [hk]
      · simp [hk]
    rw [heq]
    exact h
  · rw [if_neg hp]
    rw [List.map_append]
    apply List.Nodup.append h (by simp)
    intro a ha hb
    simp only [List.map_cons, List.map_nil, List.mem_singleton] at hb
    subst hb
    have hfn : (m.find? fun kv => decide (kv.1 = a)) = none := by
      revert hp
      cases m.find? fun kv => decide (kv.1 = a) <;> simp
    obtain ⟨kv, hkv, rfl⟩ := List.mem_map.mp ha
    have := List.find?_eq_none.mp hfn kv hkv
    simp at this

theorem cleanup_nodupKeys (w T : ℚ) (m : List (EventId × ℚ))
    (h : (m.map Prod.fst).Nodup) :
    ((cleanupOldEvents w T m).map Prod.fst).Nodup :=
  List.Nodup.sublist (List.Sublist.map Prod.fst (List.filter_sublist m)) h

theorem mapFind_filter_some (q : EventId × ℚ → Bool) (m : List (EventId × ℚ))
    (e : EventId) (t : ℚ) (hnd : (m.map Prod.fst).Nodup)
    (h : mapFind (m.filter q) e = some t) : mapFind m e = some t := by
  have hmem : (e, t) ∈ m.filter q := mapFind_some_mem _ _ _ h
  exact mapFind_eq_of_mem m (e, t) (List.mem_of_mem_filter hmem) hnd

/-- The deduplication invariant carried by the lighting filter between
hits: the sent-map has unique keys, the commands emitted so far are
pairwise separated by the duplicate window whenever they share an event
id, every emitted command with a live map entry predates that entry's
recorded time, and every emitted command whose entry was cleaned up lies
more than a window before the current frame time. -/
def LightInv (w : ℚ) (m : List (EventId × ℚ)) (E : List LightingCommand)
    (T : ℚ) : Prop :=
  (m.map Prod.fst).Nodup ∧
  E.Pairwise (fun c1 c2 => c1.eventId = c2.eventId →
    w ≤ c2.tPredSec - c1.tPredSec) ∧
  (∀ e t, mapFind m e = some t →
    ∀ c ∈ E, c.eventId = e → c.tPredSec ≤ t) ∧
  (∀ e, mapFind m e = none →
    ∀ c ∈ E, c.eventId = e → w < T - c.tPredSec)

theorem lightInv_init (w : ℚ) : LightInv w [] [] 0 := by
  refine ⟨List.nodup_nil, List.Pairwise.nil, ?_, ?_⟩
  · intro e t h c hc
    simp at hc
  · intro e _ c hc
    simp at hc

theorem lightInv_mono_time (w : ℚ) (m : List (EventId × ℚ))
    (E : List LightingCommand) (T T' : ℚ) (hT : T ≤ T')
    (h : LightInv w m E T) : LightInv w m E T' := by
  obtain ⟨hnd, hpw, hsome, hnone⟩ := h
  refine ⟨hnd, hpw, hsome, ?_⟩
  intro e he c hc hce
  have := hnone e he c hc hce
  linarith

theorem lightInv_cleanup (w T : ℚ) (m : List (EventId × ℚ))
    (E : List LightingCommand) (h : LightInv w m E T) :
    LightInv w (cleanupOldEvents w T m) E T := by
  obtain ⟨hnd, hpw, hsome, hnone⟩ := h
  refine ⟨cleanup_nodupKeys w T m hnd, hpw, ?_, ?_⟩
  · intro e t hf c hc hce
    exact hsome e t
      (mapFind_filter_some (fun kv => !(decide (w < T - kv.2))) m e t hnd hf)
      c hc hce
  · intro e hf c hc hce
    cases hm : mapFind m e with
    | none => exact hnone e hm c hc hce
    | some t =>
      have hmem : (e, t) ∈ m := mapFind_some_mem m e t hm
      have hq : ¬((fun kv => !(decide (w < T - kv.2))) (e, t) = true) := by
        intro hq
        have hmf : (e, t) ∈ cleanupOldEvents w T m :=
          List.mem_filter.mpr ⟨hmem, hq⟩
        have := mapFind_eq_of_mem (cleanupOldEvents w T m) (e, t) hmf
          (cleanup_nodupKeys w T m hnd)
        rw [hf] at this
        simp at this
      have hwt : w + t < T := by simpa using hq
      have hct : c.tPredSec ≤ t := hsome e t hm c hc hce
      linarith

theorem shouldSend_true_elim (p : LightingParams)
    (m : List (EventId × ℚ)) (T conf t' : ℚ) (e : EventId)
    (h : shouldSendCommand p m T conf t' e = true) :
    p.minLatencySec ≤ t' - T ∧
    (∀ t, mapFind m e = some t → p.duplicateWindowSec ≤ t' - t) := by
  simp only [shouldSendCommand] at h
  by_cases h1 : conf < p.confidenceThreshold
  · simp [h1] at h
  · simp only [if_neg h1] at h
    by_cases h2 : t' - T < p.minLatencySec ∨ p.maxLatencySec < t' - T
    · simp [h2] at h
    · simp only [if_neg h2] at h
      push_neg at h2
      refine ⟨h2.1, ?_⟩
      intro t ht
      rw [ht] at h
      simp only at h
      by_cases h3 : t' - t < p.duplicateWindowSec
      · simp [h3] at h
      · linarith [not_lt.mp h3]

theorem processHit_inv (p : LightingParams) (T : ℚ) (instr : String)
    (hit : PredictionHit) (acc : List (EventId × ℚ) × List LightingCommand)
    (E0 : List LightingCommand)
    (hw : 0 ≤ p.duplicateWindowSec) (hmin : 0 ≤ p.minLatencySec)
    (h : LightInv p.duplicateWindowSec acc.1 (E0 ++ acc.2) T) :
    LightInv p.duplicateWindowSec (processHit p T instr hit acc).1
      (E0 ++ (processHit p T instr hit acc).2) T := by
  obtain ⟨hnd, hpw, hsome, hnone⟩ := h
  by_cases hsend : shouldSendCommand p acc.1 T hit.confidence hit.tPredSec
      (generateEventId instr hit.tPredSec) = true
  · obtain ⟨hlat, hdup⟩ := shouldSend_true_elim p acc.1 T hit.confidence
      hit.tPredSec (generateEventId instr hit.tPredSec) hsend
    have hA : ∀ c ∈ E0 ++ acc.2,
        c.eventId = generateEventId instr hit.tPredSec →
        p.duplicateWindowSec ≤ hit.tPredSec - c.tPredSec ∧
        c.tPredSec ≤ hit.tPredSec := by
      intro c hc hce
      cases hm : mapFind acc.1 (generateEventId instr hit.tPredSec) with
      | some t =>
        have h1 := hdup t hm
        have h2 := hsome (generateEventId instr hit.tPredSec) t hm c hc hce
        constructor <;> linarith
      | none =>
        have h1 := hnone (generateEventId instr hit.tPredSec) hm c hc hce
        constructor <;> linarith
    have hne : ¬(shouldSendCommand p acc.1 T hit.confidence hit.tPredSec
        (generateEventId instr hit.tPredSec) = false) := by
      rw [hsend]
      simp
    have hstep1 : (processHit p T instr hit acc).1
        = mapInsert acc.1 (generateEventId instr hit.tPredSec)
            hit.tPredSec := by
      simp only [processHit]
      rw [if_neg hne]
    have hstep2 : (processHit p T instr hit acc).2
        = if instr = "kick" then
            acc.2 ++ [{ instrument := instr, tPredSec := hit.tPredSec, confidence := hit.confidence, r := (mapInstrumentToColor instr).1, g := (mapInstrumentToColor instr).2.1, b := (mapInstrumentToColor instr).2.2, eventId := generateEventId instr hit.tPredSec }]
          else acc.2 := by
      simp only [processHit]
      rw [if_neg hne]
    rw [hstep1, hstep2]
    by_cases hk : instr = "kick"
    · rw [if_pos hk, ← List.append_assoc]
      refine ⟨mapInsert_nodupKeys acc.1 _ _ hnd, ?_, ?_, ?_⟩
      · rw [List.pairwise_append]
        refine ⟨hpw, List.pairwise_singleton _ _, ?_⟩
        intro a ha b hb
        simp only [List.mem_singleton] at hb
        subst hb
        intro hid
        exact (hA a ha hid).1
      · intro e' t'' hf c hc hce
        by_cases hee : e' = generateEventId instr hit.tPredSec
        · subst hee
          rw [mapFind_insert_self] at hf
          injection hf with hf'
          subst hf'
          rcases List.mem_append.mp hc with hcold | hcnew
          · exact (hA c hcold hce).2
          · simp only [List.mem_singleton] at hcnew
            subst hcnew
            exact le_refl _
        · rw [mapFind_insert_other acc.1 _ _ e' hee] at hf
          rcases List.mem_append.mp hc with hcold | hcnew
          · exact hsome e' t'' hf c hcold hce
          · simp only [List.mem_singleton] at hcnew
            subst hcnew
            exact absurd hce.symm hee
      · intro e' hf c hc hce
        by_cases hee : e' = generateEventId instr hit.tPredSec
        · subst hee
          rw [mapFind_insert_self] at hf
          exact absurd hf (by simp)
        · rw [mapFind_insert_other acc.1 _ _ e' hee] at hf
          rcases List.mem_append.mp hc with hcold | hcnew
          · exact hnone e' hf c hcold hce
          · simp only [List.mem_singleton] at hcnew
            subst hcnew
            exact absurd hce.symm hee
    · rw [if_neg hk]
      refine ⟨mapInsert_nodupKeys acc.1 _ _ hnd, hpw, ?_, ?_⟩
      · intro e' t'' hf c hc hce
        by_cases hee : e' = generateEventId instr hit.tPredSec
        · subst hee
          rw [mapFind_insert_self] at hf
          injection hf with hf'
          subst hf'
          exact (hA c hc hce).2
        · rw [mapFind_insert_other acc.1 _ _ e' hee] at hf
          exact hsome e' t'' hf c hc hce
      · intro e' hf c hc hce
        by_cases hee : e' = generateEventId instr hit.tPredSec
        · subst hee
          rw [mapFind_insert_self] at hf
          exact absurd hf (by simp)
        · rw [mapFind_insert_other acc.1 _ _ e' hee] at hf
          exact hnone e' hf c hc hce
  · have hfalse : shouldSendCommand p acc.1 T hit.confidence hit.tPredSec
        (generateEventId instr hit.tPredSec) = false := by
      revert hsend
      cases shouldSendCommand p acc.1 T hit.confidence hit.tPredSec
        (generateEventId instr hit.tPredSec) <;> simp
    have hstep : processHit p T instr hit acc = acc := by
      simp only [processHit]
      rw [if_pos hfalse]
    rw [hstep]
    exact ⟨hnd, hpw, hsome, hnone⟩

theorem foldl_processHit_inv (p : LightingParams) (T : ℚ) (instr : String)
    (hw : 0 ≤ p.duplicateWindowSec) (hmin : 0 ≤ p.minLatencySec) :
    ∀ (hits : List PredictionHit)
      (acc : List (EventId × ℚ) × List LightingCommand)
      (E0 : List LightingCommand),
      LightInv p.duplicateWindowSec acc.1 (E0 ++ acc.2) T →
      LightInv p.duplicateWindowSec
        (hits.foldl (fun a h => processHit p T instr h a) acc).1
        (E0 ++ (hits.foldl (fun a h => processHit p T instr h a) acc).2)
        T := by
  intro hits
  induction hits with
  | nil => intro acc E0 h; simpa using h
  | cons hd tl ih =>
    intro acc E0 h
    simp only [List.foldl_cons]
    exact ih (processHit p T instr hd acc) E0
      (processHit_inv p T instr hd acc E0 hw hmin h)

theorem foldl_preds_inv (p : LightingParams) (T : ℚ)
    (hw : 0 ≤ p.duplicateWindowSec) (hmin : 0 ≤ p.minLatencySec) :
    ∀ (preds : List InstrumentPrediction)
      (acc : List (EventId × ℚ) × List LightingCommand)
      (E0 : List LightingCommand),
      LightInv p.duplicateWindowSec acc.1 (E0 ++ acc.2) T →
      LightInv p.duplicateWindowSec
        (preds.foldl
          (fun acc pred =>
            pred.hits.foldl (fun a h => processHit p T pred.instrument h a)
              acc) acc).1
        (E0 ++ (preds.foldl
          (fun acc pred =>
            pred.hits.foldl (fun a h => processHit p T pred.instrument h a)
              acc) acc).2)
        T := by
  intro preds
  induction preds with
  | nil => intro acc E0 h; simpa using h
  | cons hd tl ih =>
    intro acc E0 h
    simp only [List.foldl_cons]
    exact ih _ E0 (foldl_processHit_inv p T hd.instrument hw hmin hd.hits acc E0 h)

theorem processPredictionOutput_inv (p : LightingParams)
    (st : LightingState) (out : PredictionOutput)
    (E0 : List LightingCommand)
    (hw : 0 ≤ p.duplicateWindowSec) (hmin : 0 ≤ p.minLatencySec)
    (hT : st.currentTimeSec ≤ out.timestampSec)
    (h : LightInv p.duplicateWindowSec st.sentEvents E0 st.currentTimeSec) :
    LightInv p.duplicateWindowSec
      (processPredictionOutput p st out).1.sentEvents
      (E0 ++ (processPredictionOutput p st out).2)
      (processPredictionOutput p st out).1.currentTimeSec := by
  have h1 : LightInv p.duplicateWindowSec st.sentEvents E0 out.timestampSec :=
    lightInv_mono_time _ _ _ _ _ hT h
  have h2 : LightInv p.duplicateWindowSec
      ((if 50 ≤ st.cleanupCounter + 1 then
          (cleanupOldEvents p.duplicateWindowSec out.timestampSec
            st.sentEvents, (0 : ℕ))
        else (st.sentEvents, st.cleanupCounter + 1)).1)
      E0 out.timestampSec := by
    by_cases hc : 50 ≤ st.cleanupCounter + 1
    · rw [if_pos hc]
      exact lightInv_cleanup _ _ _ _ h1
    · rw [if_neg hc]
      exact h1
  have h3 := foldl_preds_inv p out.timestampSec hw hmin out.predictions
    ((if 50 ≤ st.cleanupCounter + 1 then
        (cleanupOldEvents p.duplicateWindowSec out.timestampSec
          st.sentEvents, (0 : ℕ))
      else (st.sentEvents, st.cleanupCounter + 1)).1,
     ([] : List LightingCommand)) E0 (by simpa using h2)
  simp only [processPredictionOutput]
  exact h3

theorem runLighting_aux (p : LightingParams)
    (hw : 0 ≤ p.duplicateWindowSec) (hmin : 0 ≤ p.minLatencySec) :
    ∀ (outputs : List PredictionOutput) (st : LightingState)
      (E : List LightingCommand),
      LightInv p.duplicateWindowSec st.sentEvents E st.currentTimeSec →
      List.Chain' (· ≤ ·)
        (st.currentTimeSec :: outputs.map PredictionOutput.timestampSec) →
      LightInv p.duplicateWindowSec
        (outputs.foldl
          (fun acc out =>
            let r := processPredictionOutput p acc.1 out
            (r.1, acc.2 ++ r.2)) (st, E)).1.sentEvents
        (outputs.foldl
          (fun acc out =>
            let r := processPredictionOutput p acc.1 out
            (r.1, acc.2 ++ r.2)) (st, E)).2
        (outputs.foldl
          (fun acc out =>
            let r := processPredictionOutput p acc.1 out
            (r.1, acc.2 ++ r.2)) (st, E)).1.currentTimeSec := by
  intro outputs
  induction outputs with
  | nil =>
    intro st E h _
    exact h
  | cons out tl ih =>
    intro st E h hchain
    rw [List.map_cons] at hchain
    obtain ⟨hT, hchain'⟩ := List.chain'_cons.mp hchain
    simp only [List.foldl_cons]
    exact ih ((processPredictionOutput p st out).1)
      (E ++ (processPredictionOutput p st out).2)
      (processPredictionOutput_inv p st out E hw hmin hT h) hchain'

/-- **C7** (LightingFilter deduplication): in every run of the filter over
frames with monotonically nondecreasing timestamps (starting from the
reset time 0), and with the declared nonnegative duplicate window and
minimum latency, every pair of emitted commands that carries the same
event id has prediction times separated by at least
`duplicate_window_sec`, despite the batched 50-frame cleanup of the
sent-map. -/
theorem lightingDedup (p : LightingParams) (outputs : List PredictionOutput)
    (hw : 0 ≤ p.duplicateWindowSec) (hmin : 0 ≤ p.minLatencySec)
    (hchain : List.Chain' (· ≤ ·)
      ((0 : ℚ) :: outputs.map PredictionOutput.timestampSec)) :
    (runLighting p outputs).2.Pairwise
      (fun c1 c2 => c1.eventId = c2.eventId →
        p.duplicateWindowSec ≤ |c2.tPredSec - c1.tPredSec|) := by
  have h := runLighting_aux p hw hmin outputs initLightingState []
    (lightInv_init p.duplicateWindowSec) hchain
  have hp := h.2.1
  exact List.Pairwise.imp
    (fun hr hid => le_trans (hr hid) (le_abs_self _)) hp

/-- Default lighting-filter parameters (confidence 0.3, latency window
[0.05, 2], duplicate window 0.1). -/
def lightPW : LightingParams := ⟨3/10, 2, 1/20, 1/10⟩

/-- Two frames of kick forecasts: the second frame repeats the 1.1 s
forecast, which the duplicate check drops. -/
def outputsW : List PredictionOutput :=
  [⟨0, 0, [⟨"kick", 120, 1/2, 0, 1, true,
      [⟨1/2, 9/20, 11/20, 1, 0⟩, ⟨11/10, 1, 6/5, 1, 1⟩]⟩]⟩,
   ⟨1/2, 1, [⟨"kick", 120, 1/2, 0, 1, true, [⟨11/10, 1, 6/5, 1, 2⟩]⟩]⟩]

theorem chainW : List.Chain' (· ≤ ·)
    ((0 : ℚ) :: outputsW.map PredictionOutput.timestampSec) := by
  have h : (0 : ℚ) :: outputsW.map PredictionOutput.timestampSec
      = [0, 0, 1/2] := by with_unfolding_all rfl
  rw [h]
  exact List.chain'_cons.mpr ⟨by norm_num,
    List.chain'_cons.mpr ⟨by norm_num, List.chain'_singleton _⟩⟩

theorem lightingDedup_witness :
    (0 : ℚ) ≤ lightPW.duplicateWindowSec ∧
    (0 : ℚ) ≤ lightPW.minLatencySec ∧
    List.Chain' (· ≤ ·)
      ((0 : ℚ) :: outputsW.map PredictionOutput.timestampSec) ∧
    (runLighting lightPW outputsW).2.Pairwise
      (fun c1 c2 => c1.eventId = c2.eventId →
        lightPW.duplicateWindowSec ≤ |c2.tPredSec - c1.tPredSec|) :=
  ⟨by with_unfolding_all decide, by with_unfolding_all decide, chainW,
   lightingDedup lightPW outputsW (by with_unfolding_all decide)
     (by with_unfolding_all decide) chainW⟩

/-- **C9** (sent-map growth for unemitted instruments): whenever a
forecast passes the confidence, latency and duplicate checks, the filter
records its event fingerprint with its prediction time in the sent-map —
for every instrument — while a command is appended to the output exactly
when the instrument is `"kick"` (with the kick colour (1,0,0)). -/
theorem processHit_spec (p : LightingParams) (T : ℚ) (instr : String)
    (hit : PredictionHit)
    (acc : List (EventId × ℚ) × List LightingCommand)
    (hpass : shouldSendCommand p acc.1 T hit.confidence hit.tPredSec
      (generateEventId instr hit.tPredSec) = true) :
    (processHit p T instr hit acc).1
      = mapInsert acc.1 (generateEventId instr hit.tPredSec)
          hit.tPredSec ∧
    (instr ≠ "kick" → (processHit p T instr hit acc).2 = acc.2) ∧
    (instr = "kick" → (processHit p T instr hit acc).2
      = acc.2 ++ [{ instrument := instr, tPredSec := hit.tPredSec, confidence := hit.confidence, r := 1, g := 0, b := 0, eventId := generateEventId instr hit.tPredSec }]) := by
  have hne : ¬(shouldSendCommand p acc.1 T hit.confidence hit.tPredSec
      (generateEventId instr hit.tPredSec) = false) := by
    rw [hpass]
    simp
  have hstep1 : (processHit p T instr hit acc).1
      = mapInsert acc.1 (generateEventId instr hit.tPredSec)
          hit.tPredSec := by
    simp only [processHit]
    rw [if_neg hne]
  have hstep2 : (processHit p T instr hit acc).2
      = if instr = "kick" then
          acc.2 ++ [{ instrument := instr, tPredSec := hit.tPredSec, confidence := hit.confidence, r := (mapInstrumentToColor instr).1, g := (mapInstrumentToColor instr).2.1, b := (mapInstrumentToColor instr).2.2, eventId := generateEventId instr hit.tPredSec }]
        else acc.2 := by
    simp only [processHit]
    rw [if_neg hne]
  refine ⟨hstep1, ?_, ?_⟩
  · intro hk
    rw [hstep2, if_neg hk]
  · intro hk
    rw [hstep2, if_pos hk]
    subst hk
    simp [mapInstrumentToColor]

/-- A snare forecast half a second ahead with full confidence. -/
def hitW9 : PredictionHit := ⟨1/2, 9/20, 11/20, 1, 0⟩

theorem processHit_spec_witness :
    (shouldSendCommand lightPW ([] : List (EventId × ℚ)) 0 hitW9.confidence
      hitW9.tPredSec (generateEventId "snare" hitW9.tPredSec) = true) ∧
    ((processHit lightPW 0 "snare" hitW9 ([], [])).1
      = mapInsert [] (generateEventId "snare" hitW9.tPredSec)
          hitW9.tPredSec ∧
    ("snare" ≠ "kick" →
      (processHit lightPW 0 "snare" hitW9 ([], [])).2 = []) ∧
    ("snare" = "kick" →
      (processHit lightPW 0 "snare" hitW9 ([], [])).2
        = [] ++ [{ instrument := "snare", tPredSec := hitW9.tPredSec, confidence := hitW9.confidence, r := 1, g := 0, b := 0, eventId := generateEventId "snare" hitW9.tPredSec }])) :=
  ⟨by with_unfolding_all decide,
   processHit_spec lightPW 0 "snare" hitW9 ([], [])
     (by with_unfolding_all decide)⟩

/- ## Gate logger (`GateLoggerSink::process`,
`HitPredictionLogger::get_and_increment_frame`)

Five `GateLoggerSink` instances (instrument indices 0–4) process the same
audio frame one after another, sharing one `HitPredictionLogger` whose
`_shared_frame_counter` only the index-0 sink increments.  A sink logs a
record only when the logger is enabled and its gate value is ≥ 0.5. -/

/-- The shared `HitPredictionLogger` state: the frame counter and the
`is_enabled()` flag (whether the log file is open). -/
structure LoggerState where
  sharedFrameCounter : ℤ
  enabled : Bool
deriving DecidableEq

/-- Model of `HitPredictionLogger::get_and_increment_frame`: returns the
current counter and the state after the post-increment. -/
def get_and_increment_frame (st : LoggerState) : ℤ × LoggerState :=
  (st.sharedFrameCounter,
   { st with sharedFrameCounter := st.sharedFrameCounter + 1 })

/-- Model of `HitPredictionLogger::get_frame`. -/
def get_frame (st : LoggerState) : ℤ := st.sharedFrameCounter

/-- One line written by `log_gate_value`. -/
structure GateLogRecord where
  instIndex : ℕ
  value : ℚ
  frameIdx : ℤ
deriving DecidableEq

/-- Model of `GateLoggerSink::process` for one sink on one frame: index 0
reads the counter and increments it, other indices read the already
incremented counter; a record is written only when the gate fired
(value ≥ 0.5) and the logger is enabled. -/
def gateLoggerProcess (instrumentIndex : ℕ) (gateValue : ℚ)
    (st : LoggerState) : LoggerState × List GateLogRecord :=
  if st.enabled = true then
    let pr := if instrumentIndex = 0 then get_and_increment_frame st
              else (get_frame st, st)
    (pr.2,
     if (1 : ℚ)/2 ≤ gateValue then
       [{ instIndex := instrumentIndex, value := gateValue, frameIdx := pr.1 }]
     else [])
  else (st, [])

/-- All gate sinks of one audio frame, run in scheduling order over the
shared logger state, collecting the written records. -/
def processLoggerFrame (gates : List (ℕ × ℚ)) (st : LoggerState) :
    LoggerState × List GateLogRecord :=
  gates.foldl
    (fun acc g =>
      let r := gateLoggerProcess g.1 g.2 acc.1
      (r.1, acc.2 ++ r.2)) (st, [])

theorem gateLoggerProcess_nonzero (idx : ℕ) (v : ℚ) (st : LoggerState)
    (hen : st.enabled = true) (hidx : idx ≠ 0) :
    gateLoggerProcess idx v st
      = (st, if (1 : ℚ)/2 ≤ v then
          [{ instIndex := idx, value := v, frameIdx := st.sharedFrameCounter }]
        else []) := by
  simp [gateLoggerProcess, hen, hidx, get_frame]

theorem foldRest_spec (st' : LoggerState) (hen : st'.enabled = true) :
    ∀ (rest : List (ℕ × ℚ)) (acc : List GateLogRecord),
      (∀ g ∈ rest, g.1 ≠ 0) →
      (rest.foldl
        (fun acc g =>
          let r := gateLoggerProcess g.1 g.2 acc.1
          (r.1, acc.2 ++ r.2)) (st', acc)).1 = st' ∧
      ∀ r ∈ (rest.foldl
        (fun acc g =>
          let r := gateLoggerProcess g.1 g.2 acc.1
          (r.1, acc.2 ++ r.2)) (st', acc)).2,
        r ∈ acc ∨ (r.instIndex ≠ 0 ∧ r.frameIdx = st'.sharedFrameCounter) := by
  intro rest
  induction rest with
  | nil =>
    intro acc _
    exact ⟨rfl, fun r hr => Or.inl hr⟩
  | cons g tl ih =>
    intro acc hrest
    have hg : g.1 ≠ 0 := hrest g (List.mem_cons_self g tl)
    have htl : ∀ x ∈ tl, x.1 ≠ 0 := fun x hx =>
      hrest x (List.mem_cons_of_mem g hx)
    simp only [List.foldl_cons, gateLoggerProcess_nonzero g.1 g.2 st' hen hg]
    obtain ⟨h1, h2⟩ := ih
      (acc ++ (if (1 : ℚ)/2 ≤ g.2 then
        [{ instIndex := g.1, value := g.2, frameIdx := st'.sharedFrameCounter }]
      else [])) htl
    refine ⟨h1, ?_⟩
    intro r hr
    rcases h2 r hr with hmem | hnew
    · rcases List.mem_append.mp hmem with hold | hrec
      · exact Or.inl hold
      · refine Or.inr ?_
        by_cases hv : (1 : ℚ)/2 ≤ g.2
        · rw [if_pos hv] at hrec
          simp only [List.mem_singleton] at hrec
          subst hrec
          exact ⟨hg, rfl⟩
        · rw [if_neg hv] at hrec
          simp at hrec
    · exact Or.inr hnew

/-- **C10** (shared frame counter skew): with the logger enabled and the
index-0 gate sink processed first in a frame, every record the index-0
sink writes for that frame carries the counter value n read before its
increment, and every record a non-zero-index sink writes carries n+1 —
so hit records of one audio frame differ by exactly one frame index
between instrument 0 and the other instruments. -/
theorem loggerFrameSkew (st : LoggerState) (v0 : ℚ)
    (rest : List (ℕ × ℚ)) (hen : st.enabled = true)
    (hrest : ∀ g ∈ rest, g.1 ≠ 0) :
    ∀ r ∈ (processLoggerFrame ((0, v0) :: rest) st).2,
      (r.instIndex = 0 → r.frameIdx = st.sharedFrameCounter) ∧
      (r.instIndex ≠ 0 → r.frameIdx = st.sharedFrameCounter + 1) := by
  intro r hr
  have hhead : gateLoggerProcess 0 v0 st
      = ({ st with sharedFrameCounter := st.sharedFrameCounter + 1 },
         if (1 : ℚ)/2 ≤ v0 then
           [{ instIndex := 0, value := v0,
              frameIdx := st.sharedFrameCounter }]
         else []) := by
    simp [gateLoggerProcess, hen, get_and_increment_frame]
  have hen' : ({ st with
      sharedFrameCounter := st.sharedFrameCounter + 1 } :
      LoggerState).enabled = true := hen
  simp only [processLoggerFrame, List.foldl_cons, hhead] at hr
  obtain ⟨_, h2⟩ := foldRest_spec
    { st with sharedFrameCounter := st.sharedFrameCounter + 1 } hen' rest
    ([] ++ (if (1 : ℚ)/2 ≤ v0 then
      [{ instIndex := 0, value := v0, frameIdx := st.sharedFrameCounter }]
    else [])) hrest
  rcases h2 r hr with hmem | hnew
  · rw [List.nil_append] at hmem
    by_cases hv : (1 : ℚ)/2 ≤ v0
    · rw [if_pos hv] at hmem
      simp only [List.mem_singleton] at hmem
      subst hmem
      exact ⟨fun _ => rfl, fun hx => absurd rfl hx⟩
    · rw [if_neg hv] at hmem
      simp at hmem
  · exact ⟨fun hx => absurd hx hnew.1, fun _ => hnew.2⟩

/-- A logger state with the counter at 7 and the log file open. -/
def loggerStW : LoggerState := ⟨7, true⟩

/-- The non-kick gate sinks of one frame: snare and clap fire, chat and
open-hat do not. -/
def gatesRestW : List (ℕ × ℚ) := [(1, 1), (2, 1), (3, 0), (4, 1/4)]

theorem loggerFrameSkew_witness :
    loggerStW.enabled = true ∧
    (∀ g ∈ gatesRestW, g.1 ≠ 0) ∧
    ∀ r ∈ (processLoggerFrame ((0, 1) :: gatesRestW) loggerStW).2,
      (r.instIndex = 0 → r.frameIdx = loggerStW.sharedFrameCounter) ∧
      (r.instIndex ≠ 0 → r.frameIdx = loggerStW.sharedFrameCounter + 1) :=
  ⟨rfl, by decide,
   loggerFrameSkew loggerStW 1 gatesRestW rfl (by decide)⟩

end BeatPipe
